import Mathlib

/-!
Verification of the floccus merge-sync core and the NextcloudFolders adapter.

The reconciler (`MergeSyncProcess.reconcile`, `MergeSyncProcess.getDiffs`) and
the adapter operations (`updateFolder`, `bulkImportFolder`, `createBookmark`,
`getExistingBookmark`) are shallowly embedded below.  Data-model helpers that
live in files not included here (Tree.ts, Diff.ts, Scanner.ts, Mappings.ts)
are modelled from the specification document; each such definition says so in
its doc comment.

JavaScript conventions that matter for fidelity:
  * an object lookup of a missing key yields `undefined`; identifiers are
    therefore embedded as `Id`, a string with a distinguished `undef` value;
  * asynchronous fan-out (`Parallel.each`) is embedded as a sequential left
    fold, matching the spec's requirement (§5) that all Diff commits and
    mapping-store writes occur in action-log order.
-/

namespace Floccus

/-- An identifier value.  `str s` is an ordinary (stringly compared) id;
`undef` is JavaScript's `undefined`, which a failed object lookup yields. -/
inductive Id where
  | str : String → Id
  | undef : Id
deriving DecidableEq, Repr

/-- The two item variants of the tree model. -/
inductive ItemType where
  | folder
  | bookmark
deriving DecidableEq, Repr

/-- Modelled from the spec (§3, Item): a tree node is a tagged variant of
folder and bookmark; both carry `id`, `parentId`, `title`; a bookmark carries
a `url`; a folder carries an ordered list of children. -/
inductive Item where
  | bookmark (id parentId : Id) (title url : String)
  | folder (id parentId : Id) (title : String) (children : List Item)

mutual

def Item.beq : Item → Item → Bool
  | .bookmark a b c d, .bookmark a' b' c' d' =>
    a == a' && b == b' && c == c' && d == d'
  | .folder a b c cs, .folder a' b' c' cs' =>
    a == a' && b == b' && c == c' && beqItemList cs cs'
  | _, _ => false

def beqItemList : List Item → List Item → Bool
  | [], [] => true
  | x :: xs, y :: ys => Item.beq x y && beqItemList xs ys
  | _, _ => false

end

mutual

theorem Item.beq_iff : ∀ x y : Item, Item.beq x y = true ↔ x = y
  | .bookmark a b c d, .bookmark a' b' c' d' => by
    simp [Item.beq, and_assoc]
  | .bookmark .., .folder .. => by simp [Item.beq]
  | .folder .., .bookmark .. => by simp [Item.beq]
  | .folder a b c cs, .folder a' b' c' cs' => by
    simp [Item.beq, beqItemList_iff cs cs', and_assoc]

theorem beqItemList_iff : ∀ xs ys : List Item, beqItemList xs ys = true ↔ xs = ys
  | [], [] => by simp [beqItemList]
  | [], _ :: _ => by simp [beqItemList]
  | _ :: _, [] => by simp [beqItemList]
  | x :: xs, y :: ys => by
    simp [beqItemList, Item.beq_iff x y, beqItemList_iff xs ys]

end

instance : DecidableEq Item :=
  fun x y => decidable_of_iff (Item.beq x y = true) (Item.beq_iff x y)

namespace Item

def id : Item → Id
  | .bookmark i _ _ _ => i
  | .folder i _ _ _ => i

def parentId : Item → Id
  | .bookmark _ p _ _ => p
  | .folder _ p _ _ => p

def type : Item → ItemType
  | .bookmark .. => .bookmark
  | .folder .. => .folder

def title : Item → String
  | .bookmark _ _ t _ => t
  | .folder _ _ t _ => t

def children : Item → List Item
  | .bookmark .. => []
  | .folder _ _ _ cs => cs

/-- Modelled from the spec (§3): `canMergeWith(other)` is true iff the items
are of the same variant and have the same identity-neutral content —
bookmarks: same URL; folders: same title. -/
def canMergeWith : Item → Item → Bool
  | .bookmark _ _ _ u, .bookmark _ _ _ u' => u == u'
  | .folder _ _ t _, .folder _ _ t' _ => t == t'
  | _, _ => false

end Item

mutual

/-- All items of the subtree rooted at an item, the item itself included. -/
def Item.subtreeItems : Item → List Item
  | .bookmark i p t u => [.bookmark i p t u]
  | .folder i p t cs => .folder i p t cs :: subtreeItemsList cs

/-- Concatenated subtrees of a list of sibling items. -/
def subtreeItemsList : List Item → List Item
  | [] => []
  | c :: cs => Item.subtreeItems c ++ subtreeItemsList cs

end

mutual

/-- Modelled from the spec (§3): `folder.findItem(kind, id)` searches the
subtree (the folder itself included) for the first item of the given variant
with the given id. -/
def Item.findItem (k : ItemType) (i : Id) : Item → Option Item
  | .bookmark a b c d =>
    if ItemType.bookmark = k ∧ a = i then some (.bookmark a b c d) else none
  | .folder a b c cs =>
    if ItemType.folder = k ∧ a = i then some (.folder a b c cs)
    else findItemList k i cs

def findItemList (k : ItemType) (i : Id) : List Item → Option Item
  | [] => none
  | c :: cs =>
    match Item.findItem k i c with
    | some r => some r
    | none => findItemList k i cs

end

/-- Modelled from the spec (§3): `folder.findFolder(id)` finds the folder with
the given id in the subtree, the folder itself included. -/
def Item.findFolder (x : Item) (i : Id) : Option Item :=
  Item.findItem .folder i x

mutual

/-- The chain of folders from this node down to the folder with id `i`
(both ends included), or `none` when no such folder exists in the subtree. -/
def pathTo (i : Id) : Item → Option (List Item)
  | .bookmark .. => none
  | .folder a b c cs =>
    if a = i then some [.folder a b c cs]
    else (pathToList i cs).map (fun l => .folder a b c cs :: l)

def pathToList (i : Id) : List Item → Option (List Item)
  | [] => none
  | c :: cs =>
    match pathTo i c with
    | some l => some l
    | none => pathToList i cs

end

/-- Modelled from the spec (§3 invariants, §9 design notes):
`Folder.getAncestorsOf(item, tree)` walks `parentId` pointers from the item up
to the tree root and returns the chain, item and root included.  Under the
parent-pointer-agreement invariant this chain is exactly the structural path
from the root to the item.  The original crashes when `item` is `null`; the
model returns the empty chain there. -/
def getAncestorsOf (item : Option Item) (tree : Item) : List Item :=
  match item with
  | none => []
  | some it => (pathTo it.id tree).getD []

/-- Modelled from the spec (§3): `count()` is the recursive item count of a
folder's contents. -/
def Item.count (x : Item) : Nat :=
  (subtreeItemsList x.children).length

/-- An association table of identifiers, one variant and one direction. -/
abbrev IdMap := List (Id × Id)

/-- JavaScript object lookup: the value at the key, or `undefined`. -/
def jsGet (m : IdMap) (k : Id) : Id :=
  ((m.find? (fun p => p.fst == k)).map Prod.snd).getD Id.undef

/-- Lookup returning `none` for a missing key. -/
def lookupId (m : IdMap) (k : Id) : Option Id :=
  (m.find? (fun p => p.fst == k)).map Prod.snd

/-- Modelled from the spec (§3): one direction of the mapping table,
partitioned by variant. -/
structure MapSide where
  folder : IdMap
  bookmark : IdMap
deriving DecidableEq, Repr

/-- Variant-indexed access, `mapping[item.type]` in the original. -/
def MapSide.get (m : MapSide) : ItemType → IdMap
  | .folder => m.folder
  | .bookmark => m.bookmark

/-- Modelled from the spec (§3): the mapping snapshot handed to the
reconciler. -/
structure MappingsSnapshot where
  LocalToServer : MapSide
  ServerToLocal : MapSide
deriving DecidableEq, Repr

/-- The action kinds of the diff algebra. -/
inductive ActionType where
  | create
  | update
  | move
  | remove
  | reorder
deriving DecidableEq, Repr

/-- Modelled from the spec (§3): an action of a Diff.  `payload` is the
post-state; `oldItem` is the pre-state carried by MOVE and UPDATE actions.
(The `index`/`order` bookkeeping of REORDER actions plays no part in the
properties below and is omitted.) -/
structure Action where
  type : ActionType
  payload : Item
  oldItem : Option Item := none
deriving DecidableEq

/-- Modelled from the spec (§4.2): `diff.getActions(type)`. -/
def getActions (d : List Action) (t : ActionType) : List Action :=
  d.filter (fun a => a.type == t)

/-- Modelled from the spec (§4.2): identifier translation of one item —
`payload.id` through the map of its own variant, `payload.parentId` through
the folder map; unmapped ids pass through unchanged. -/
def mapItem (m : MapSide) : Item → Item
  | .bookmark i p t u =>
    .bookmark ((lookupId m.bookmark i).getD i) ((lookupId m.folder p).getD p) t u
  | .folder i p t cs =>
    .folder ((lookupId m.folder i).getD i) ((lookupId m.folder p).getD p) t cs

/-- Identifier translation of one action: payload and oldItem. -/
def mapAction (m : MapSide) (a : Action) : Action :=
  { a with payload := mapItem m a.payload, oldItem := a.oldItem.map (mapItem m) }

/-- Modelled from the spec (§4.2): `diff.map(mapping, toServer, filter)` —
every action passing the filter has its identifiers translated. -/
def mapDiff (m : MapSide) (filt : Action → Bool) (d : List Action) : List Action :=
  d.map (fun a => if filt a then mapAction m a else a)

/-- The inputs one `MergeSyncProcess` reconciliation run reads: the two
borrowed trees and the mapping snapshot (spec §4.3: trees are immutable for
the duration of the run). -/
structure SyncContext where
  localTreeRoot : Item
  serverTreeRoot : Item
  mappingsSnapshot : MappingsSnapshot

/-- Replace an item's `id` and `parentId`, keeping everything else.  This is
the effect of the two assignments on the cloned item in the compensation
branch of the reconciler. -/
def Item.withIds : Item → Id → Id → Item
  | .bookmark _ _ t u, i, p => .bookmark i p t u
  | .folder _ _ t cs, i, p => .folder i p t cs

/-- Modelled from the spec (§4.1, §4.4): the pairings recorded by the
sub-scan that CREATE/CREATE reconciliation runs over two corresponding
subtrees.  Children are paired recursively by variant and `canMergeWith`
(first match); each matched pair is recorded as (old-side item, new-side id),
exactly what the sub-scanner's merge callback pushes. -/
def subScanPairs (oldF newF : Item) : List (Item × Id) :=
  match oldF, newF with
  | .folder _ _ _ ocs, .folder _ _ _ ncs =>
    ncs.attach.flatMap (fun np =>
      match hfound : ocs.find? (fun o => o.type == np.val.type && o.canMergeWith np.val) with
      | none => []
      | some o => (o, np.val.id) :: subScanPairs o np.val)
  | _, _ => []
termination_by sizeOf oldF + sizeOf newF
decreasing_by
  all_goals simp_wf
  have h1 : sizeOf np.val < sizeOf ncs := List.sizeOf_lt_of_mem np.property
  have h2 : sizeOf o < sizeOf ocs :=
    List.sizeOf_lt_of_mem (List.mem_of_find?_eq_some hfound)
  omega

namespace MergeSyncProcess

/-- State threaded through one reconciliation pass: the plan built so far and
the pairings queued through `addMapping`, in order. -/
structure PassState where
  plan : List Action
  newMaps : List (Item × Id)
deriving DecidableEq

/-- Source lines 93–104 (server pass): decides whether the server MOVE `a` is
in hierarchy reversal with the local MOVE `action`.  A missing folder makes
the corresponding conjunct false (the original would crash on the `null`). -/
def hierarchyReversalServer (ctx : SyncContext) (action a : Action) : Bool :=
  let snap := ctx.mappingsSnapshot
  let serverFolder := Item.findItem .folder a.payload.id ctx.serverTreeRoot
  let localFolder := Item.findItem .folder action.payload.id ctx.localTreeRoot
  let localAncestors :=
    getAncestorsOf (Item.findItem .folder action.payload.parentId ctx.localTreeRoot)
      ctx.localTreeRoot
  let serverAncestors :=
    getAncestorsOf (Item.findItem .folder a.payload.parentId ctx.serverTreeRoot)
      ctx.serverTreeRoot
  action.payload.type == .folder && a.payload.type == .folder &&
    localAncestors.any (fun ancestor =>
      match serverFolder with
      | some sf => (Item.findItem .folder (jsGet snap.LocalToServer.folder ancestor.id) sf).isSome
      | none => false) &&
    serverAncestors.any (fun ancestor =>
      match localFolder with
      | some lf => (Item.findItem .folder (jsGet snap.ServerToLocal.folder ancestor.id) lf).isSome
      | none => false)

/-- Source lines 184–195 (local pass): the symmetric classifier; here
`action` is the server MOVE and `a` the local MOVE. -/
def hierarchyReversalLocal (ctx : SyncContext) (action a : Action) : Bool :=
  let snap := ctx.mappingsSnapshot
  let serverFolder := Item.findItem .folder action.payload.id ctx.serverTreeRoot
  let localFolder := Item.findItem .folder a.payload.id ctx.localTreeRoot
  let localAncestors :=
    getAncestorsOf (Item.findItem .folder a.payload.parentId ctx.localTreeRoot)
      ctx.localTreeRoot
  let serverAncestors :=
    getAncestorsOf (Item.findItem .folder action.payload.parentId ctx.serverTreeRoot)
      ctx.serverTreeRoot
  action.payload.type == .folder && a.payload.type == .folder &&
    localAncestors.any (fun ancestor =>
      match serverFolder with
      | some sf => (Item.findItem .folder (jsGet snap.LocalToServer.folder ancestor.id) sf).isSome
      | none => false) &&
    serverAncestors.any (fun ancestor =>
      match localFolder with
      | some lf => (Item.findItem .folder (jsGet snap.ServerToLocal.folder ancestor.id) lf).isSome
      | none => false)

/-- Source lines 106–123: revert one conflicting server MOVE `a` into the
evolving server plan, unless the plan or the local diff already holds a MOVE
for the same payload id.  `clone()` is the identity in this pure model.  A
MOVE always carries its pre-state; on a missing `oldItem` the original
crashes, the model emits nothing. -/
def revertServerMove (ctx : SyncContext) (localDiff : List Action)
    (plan : List Action) (a : Action) : List Action :=
  match a.oldItem with
  | none => plan
  | some aOld =>
    let payload := aOld
    let oldItem := a.payload.withIds
      (jsGet (ctx.mappingsSnapshot.ServerToLocal.get a.payload.type) a.payload.id)
      (jsGet ctx.mappingsSnapshot.ServerToLocal.folder a.payload.parentId)
    if (getActions plan .move).any (fun mv => mv.payload.id == payload.id) ||
        (getActions localDiff .move).any (fun mv => mv.payload.id == payload.id) then
      plan
    else
      plan ++ [{ a with payload := payload, oldItem := some oldItem }]

/-- Source lines 57–134: processing of one local action during the server
pass (`Parallel.each` modelled as a sequential fold, spec §5). -/
def serverStep (ctx : SyncContext) (localDiff serverDiff : List Action)
    (st : PassState) (action : Action) : PassState :=
  let snap := ctx.mappingsSnapshot
  let serverCreations := getActions serverDiff .create
  let serverMoves := getActions serverDiff .move
  if action.type == .remove then st
  else
    let concurrentCreation :=
      if action.type == .create then
        serverCreations.find? (fun a =>
          action.payload.parentId == jsGet snap.ServerToLocal.folder a.payload.parentId &&
          action.payload.canMergeWith a.payload)
      else none
    match concurrentCreation with
    | some cc =>
      { st with newMaps := st.newMaps ++ subScanPairs cc.payload action.payload
          ++ [(cc.payload, action.payload.id)] }
    | none =>
      let revs :=
        if action.type == .move then serverMoves.filter (hierarchyReversalServer ctx action)
        else []
      if revs.isEmpty then
        if action.type == .reorder then st
        else { st with plan := st.plan ++ [action] }
      else
        { st with plan := revs.foldl (revertServerMove ctx localDiff) st.plan ++ [action] }

/-- Source lines 141–214: processing of one server action during the local
pass. -/
def localStep (ctx : SyncContext) (localDiff : List Action)
    (st : PassState) (action : Action) : PassState :=
  let snap := ctx.mappingsSnapshot
  let localCreations := getActions localDiff .create
  let localMoves := getActions localDiff .move
  let localUpdates := getActions localDiff .update
  if action.type == .remove then st
  else
    let concurrentCreation :=
      if action.type == .create then
        localCreations.find? (fun a =>
          action.payload.parentId == jsGet snap.LocalToServer.folder a.payload.parentId &&
          action.payload.canMergeWith a.payload)
      else none
    match concurrentCreation with
    | some cc =>
      { st with newMaps := st.newMaps ++ subScanPairs cc.payload action.payload
          ++ [(cc.payload, action.payload.id)] }
    | none =>
      if action.type == .move &&
          localMoves.any (fun a =>
            action.payload.id == jsGet (snap.LocalToServer.get a.payload.type) a.payload.id) then
        st
      else if action.type == .move &&
          !(localMoves.filter (hierarchyReversalLocal ctx action)).isEmpty then
        st
      else if action.type == .update &&
          localUpdates.any (fun a =>
            action.payload.id == jsGet (snap.LocalToServer.get a.payload.type) a.payload.id) then
        st
      else if action.type == .reorder then st
      else { st with plan := st.plan ++ [action] }

/-- The pass state after the local-to-server pass (source lines 56–134). -/
def serverPassState (ctx : SyncContext) (localDiff serverDiff : List Action) : PassState :=
  localDiff.foldl (serverStep ctx localDiff serverDiff) ⟨[], []⟩

/-- The server plan before identifier translation. -/
def serverPlanPre (ctx : SyncContext) (localDiff serverDiff : List Action) : List Action :=
  (serverPassState ctx localDiff serverDiff).plan

/-- The pass state after the server-to-local pass (source lines 140–214). -/
def localPassState (ctx : SyncContext) (localDiff serverDiff : List Action) : PassState :=
  serverDiff.foldl (localStep ctx localDiff) ⟨[], []⟩

/-- The local plan before identifier translation. -/
def localPlanPre (ctx : SyncContext) (localDiff serverDiff : List Action) : List Action :=
  (localPassState ctx localDiff serverDiff).plan

/-- Source lines 137 and 216: the filter of the final identifier translation
of both plans — everything except REORDER and MOVE actions. -/
def planFilter (a : Action) : Bool :=
  a.type != .reorder && a.type != .move

/-- The reconciler's output record. -/
structure ReconcileResult where
  localPlan : List Action
  serverPlan : List Action
deriving DecidableEq

/-- Source lines 45–219: `MergeSyncProcess.reconcile`.  Both passes run over
the opposite diff, then each plan has its identifiers translated under
`planFilter`. -/
def reconcile (ctx : SyncContext) (localDiff serverDiff : List Action) : ReconcileResult :=
  { serverPlan := mapDiff ctx.mappingsSnapshot.LocalToServer planFilter
      (serverPlanPre ctx localDiff serverDiff),
    localPlan := mapDiff ctx.mappingsSnapshot.ServerToLocal planFilter
      (localPlanPre ctx localDiff serverDiff) }

end MergeSyncProcess

/-- Modelled from the spec (§4.6): duplicate-overwriting insertion into one
direction of the persistent mapping store — a later addition for the same key
silently replaces the earlier value. -/
def storePut (m : IdMap) (k v : Id) : IdMap :=
  if (m.find? (fun p => p.fst == k)).isSome then
    m.map (fun p => if p.fst == k then (k, v) else p)
  else m ++ [(k, v)]

/-- The persistent mapping store (spec §4.6). -/
structure MappingsStore where
  LocalToServer : MapSide
  ServerToLocal : MapSide
deriving DecidableEq, Repr

/-- Insertion into the variant-selected direction. -/
def MapSide.put (m : MapSide) (t : ItemType) (k v : Id) : MapSide :=
  match t with
  | .folder => { m with folder := storePut m.folder k v }
  | .bookmark => { m with bookmark := storePut m.bookmark k v }

/-- Modelled from the spec (§4.6): `addMapping(server, localItem, serverId)`
records the pairing in both directions for the item's variant; duplicates
overwrite silently. -/
def addMappingToServer (st : MappingsStore) (localItem : Item) (serverId : Id) :
    MappingsStore :=
  { LocalToServer := st.LocalToServer.put localItem.type localItem.id serverId,
    ServerToLocal := st.ServerToLocal.put localItem.type serverId localItem.id }

namespace MergeSyncProcess

/-- Source lines 39–41 of `MergeSyncProcess.getDiffs`: the pairings proposed
by the two first-sync scans are queued and applied to the store in FIFO
order (spec §4.6, §5). -/
def applyMappingQueue (ps : List (Item × Id)) (st : MappingsStore) : MappingsStore :=
  ps.foldl (fun s p => addMappingToServer s p.fst p.snd) st

end MergeSyncProcess

namespace NextcloudFolders

/-- An HTTP request issued by the adapter, reduced to verb and relative URL
(bodies play no role in the properties below). -/
structure Request where
  verb : String
  relUrl : String
deriving DecidableEq, Repr

mutual

/-- Replace the child list of the folder with id `pid` (first occurrence on a
depth-first walk) by `f` applied to it. -/
def mapFolderChildren (pid : Id) (f : List Item → List Item) : Item → Item
  | .bookmark a b c d => .bookmark a b c d
  | .folder a b c cs =>
    if a = pid then .folder a b c (f cs)
    else .folder a b c (mapFolderChildrenList pid f cs)

/-- List version of `mapFolderChildren`. -/
def mapFolderChildrenList (pid : Id) (f : List Item → List Item) : List Item → List Item
  | [] => []
  | c :: cs => mapFolderChildren pid f c :: mapFolderChildrenList pid f cs

end

/-- Outcome of a structural adapter call: the requests it sent, the cached
tree afterwards (the original mutates it in place), and the raised error. -/
structure TreeCallOutcome where
  requests : List Request
  tree : Item
  error : Option String
deriving DecidableEq

/-- Source NextcloudFolders.ts lines 638–670: `updateFolder`.  The folder
argument is given by its id, its requested new parentId and new title.  When
the requested parent lies inside the folder's own subtree the call throws
`Detected folder loop creation` before the PUT and before any mutation of the
cached tree.  (`String(...)`-based id comparisons are `Id` equality here; the
original crashes when the folder is not in the cached tree.) -/
def updateFolder (tree : Item) (fid fparentId : Id) (ftitle : String) : TreeCallOutcome :=
  match tree.findFolder fid with
  | none => { requests := [], tree := tree, error := some "TypeError" }
  | some oldFolder =>
    if (oldFolder.findFolder fparentId).isSome then
      { requests := [], tree := tree, error := some "Detected folder loop creation" }
    else
      let put : Request := { verb := "PUT", relUrl := "folder" }
      match tree.findFolder oldFolder.parentId with
      | none => { requests := [put], tree := tree, error := some "Error008" }
      | some _ =>
        let t1 := mapFolderChildren oldFolder.parentId
          (fun cs => cs.filter (fun child => !(child.id == fid))) tree
        match t1.findFolder fparentId with
        | none => { requests := [put], tree := t1, error := some "Error009" }
        | some _ =>
          let moved := Item.folder oldFolder.id fparentId ftitle oldFolder.children
          let t2 := mapFolderChildren fparentId (fun cs => cs ++ [moved]) t1
          { requests := [put], tree := t2, error := none }

/-- Outcome of `bulkImportFolder`, reduced to the requests sent and the
error raised; the import's tree rebuild is outside the verified properties. -/
structure BulkImportOutcome where
  requests : List Request
  error : Option String
deriving DecidableEq

/-- Source lines 574–608: the guards of `bulkImportFolder`.
`hasFeatureBulkImport` is ternary (`null` before detection). -/
def bulkImportFolder (hasFeatureBulkImport : Option Bool) (tree : Item)
    (parentId : Id) (folder : Item) : BulkImportOutcome :=
  if hasFeatureBulkImport == some false then
    { requests := [], error := some "Current server does not support bulk import" }
  else if folder.count > 300 then
    { requests := [], error := some "Refusing to bulk import more than 300 bookmarks" }
  else
    match tree.findFolder parentId with
    | none => { requests := [], error := some "Error005" }
    | some _ => { requests := [{ verb := "POST", relUrl := "import" }], error := none }

/-- One bookmark record of the server-side store: upstream id, url, title and
the set of folders it appears in. -/
structure ServerBookmark where
  id : String
  url : String
  title : String
  folders : List Id
deriving DecidableEq, Repr

/-- One entry of the adapter's cached flat bookmark list (`this.list`); only
the upstream id and the url matter here. -/
structure CachedBookmark where
  id : String
  url : String
deriving DecidableEq, Repr

/-- The adapter state relevant to bookmark creation: the server store, the
cached list (absent until loaded), the existence-check feature flag, and the
server's id counter for newly created bookmarks. -/
structure BookmarkState where
  bookmarks : List ServerBookmark
  list : Option (List CachedBookmark)
  hasFeatureExistenceCheck : Bool
  nextId : Nat
deriving DecidableEq, Repr

/-- Source lines 267–282: the flat list built from the server's bookmarks,
one entry per folder membership. -/
def renderList (bms : List ServerBookmark) : List CachedBookmark :=
  bms.flatMap (fun b => b.folders.map (fun _ => { id := b.id, url := b.url }))

/-- Source lines 245–288: `getBookmarksList` returns the cached list,
fetching and caching it on first use. -/
def getBookmarksList (st : BookmarkState) : BookmarkState × List CachedBookmark :=
  match st.list with
  | some l => (st, l)
  | none =>
    let l := renderList st.bookmarks
    ({ st with list := some l }, l)

/-- Source lines 737–756: `getExistingBookmark(url)` — the upstream id of a
server bookmark with this url, through the server's url query when the
feature is advertised and through the cached list otherwise; `none` models
the `false` return. -/
def getExistingBookmark (st : BookmarkState) (url : String) :
    BookmarkState × Option String :=
  if st.hasFeatureExistenceCheck then
    (st, (st.bookmarks.find? (fun b => b.url == url)).map ServerBookmark.id)
  else
    let (st1, l) := getBookmarksList st
    (st1, (l.find? (fun b => b.url == url)).map CachedBookmark.id)

/-- Rendering of an id into a composite-id string (JavaScript string
concatenation; `undefined` prints as such). -/
def renderId : Id → String
  | .str s => s
  | .undef => "undefined"

/-- Source lines 795–827: `updateBookmark` on a composite id
`upstreamId;oldParentId`: the server bookmark's url and title are replaced
and its folder set becomes the old set minus the old parent plus the new
parent.  (The original turns an empty folder set into `[null]` and filters
null parents out again, which coincides with filtering the folder list
directly; it throws when the upstream bookmark does not exist.) -/
def applyBookmarkPut (upstreamId newUrl newTitle : String) (newFolders : List Id)
    (b2 : ServerBookmark) : ServerBookmark :=
  if b2.id == upstreamId then
    { b2 with url := newUrl, title := newTitle, folders := newFolders }
  else b2

def updateBookmark (st : BookmarkState) (upstreamId : String) (oldParentId : Id)
    (bmUrl bmTitle : String) (newParentId : Id) : BookmarkState × Option String :=
  match st.bookmarks.find? (fun b => b.id == upstreamId) with
  | none => (st, some "Error015")
  | some b =>
    let newFolders := b.folders.filter (fun p => !(p == Id.undef) && !(p == oldParentId))
      ++ [newParentId]
    ({ st with bookmarks :=
        st.bookmarks.map (applyBookmarkPut upstreamId bmUrl bmTitle newFolders) },
      none)

/-- Source line 789: push the upstream rendition of the new bookmark onto the
cached list when one is loaded. -/
def pushCached (st : BookmarkState) (u url : String) : BookmarkState :=
  match st.list with
  | none => st
  | some l => { st with list := some (l ++ [{ id := u, url := url }]) }

/-- Source lines 769–784: the POST creating a fresh server bookmark under the
requested parent; the server assigns the next free id (rendered opaquely as a
nonempty string). -/
def createBookmarkUpstream (st : BookmarkState) (bmUrl bmTitle : String)
    (bmParentId : Id) : BookmarkState × String :=
  let u := "b" ++ toString st.nextId
  ({ st with
      bookmarks := st.bookmarks ++
        [{ id := u, url := bmUrl, title := bmTitle, folders := [bmParentId] }],
      nextId := st.nextId + 1 },
    u)

/-- Source lines 758–793: `createBookmark`.  When a bookmark with the url
already exists upstream, the existing one is updated so that it additionally
appears under the requested parent; otherwise a fresh one is created.  The
returned id is the composite `upstreamId;parentId`.  (JavaScript truthiness:
an empty-string upstream id would be treated as `false`; the per-url lock
serialises calls, so the sequential model is faithful.) -/
def createBookmark (st : BookmarkState) (bmUrl bmTitle : String) (bmParentId : Id) :
    BookmarkState × Except String String :=
  let (st1, existing) := getExistingBookmark st bmUrl
  match existing with
  | some u =>
    if u == "" then
      let (st2, u2) := createBookmarkUpstream st1 bmUrl bmTitle bmParentId
      (pushCached st2 u2 bmUrl, .ok (u2 ++ ";" ++ renderId bmParentId))
    else
      match updateBookmark st1 u bmParentId bmUrl bmTitle bmParentId with
      | (st2, some e) => (st2, .error e)
      | (st2, none) =>
        (pushCached st2 u bmUrl, .ok (u ++ ";" ++ renderId bmParentId))
  | none =>
    let (st2, u2) := createBookmarkUpstream st1 bmUrl bmTitle bmParentId
    (pushCached st2 u2 bmUrl, .ok (u2 ++ ";" ++ renderId bmParentId))

end NextcloudFolders

/-! ### General lemmas about the diff algebra -/

/-- A membership in `getActions` gives membership in the diff and the type. -/
theorem mem_getActions {d : List Action} {t : ActionType} {a : Action}
    (h : a ∈ getActions d t) : a ∈ d ∧ a.type = t := by
  simpa [getActions, List.mem_filter] using h

/-- Conversely, actions of the diff with the type are in `getActions`. -/
theorem getActions_mem {d : List Action} {t : ActionType} {a : Action}
    (ha : a ∈ d) (ht : a.type = t) : a ∈ getActions d t := by
  simp [getActions, List.mem_filter, ha, ht]

/-- Identifier translation never changes an action's type. -/
theorem mapAction_type (m : MapSide) (a : Action) : (mapAction m a).type = a.type := rfl

/-- The per-action step of `mapDiff` never changes an action's type. -/
theorem mapDiffStep_type (m : MapSide) (filt : Action → Bool) (a : Action) :
    (if filt a then mapAction m a else a).type = a.type := by
  split <;> rfl

/-- A type predicate satisfied by every action of a diff is satisfied by
every action of the translated diff. -/
theorem mapDiff_all_type (m : MapSide) (filt : Action → Bool) (p : ActionType → Bool)
    (l : List Action) (h : l.all (fun a => p a.type) = true) :
    (mapDiff m filt l).all (fun a => p a.type) = true := by
  rw [List.all_eq_true] at h ⊢
  intro x hx
  rcases List.mem_map.mp hx with ⟨a, ha, rfl⟩
  rw [mapDiffStep_type]
  exact h a ha

/-- Invariant preservation along a left fold. -/
theorem foldlInv {α β : Type} (P : β → Prop) (f : β → α → β) (l : List α) (b : β)
    (hb : P b) (hf : ∀ c a, a ∈ l → P c → P (f c a)) : P (l.foldl f b) := by
  induction l generalizing b with
  | nil => exact hb
  | cons x xs ih =>
    exact ih _ (hf b x (List.mem_cons_self x xs) hb)
      (fun c a ha hc => hf c a (List.mem_cons_of_mem x ha) hc)

namespace MergeSyncProcess

/-! ### C1: no REMOVE action reaches either plan -/

/-- The compensation step keeps a REMOVE-free plan REMOVE-free: it appends at
most a copy of the server MOVE. -/
theorem revertServerMove_noRemove (ctx : SyncContext) (ld : List Action)
    (pl : List Action) (a : Action)
    (h : pl.all (fun x => x.type != .remove) = true) (ha : a.type ≠ .remove) :
    (revertServerMove ctx ld pl a).all (fun x => x.type != .remove) = true := by
  unfold revertServerMove
  split
  · exact h
  · dsimp only
    split
    · exact h
    · rw [List.all_append, h]
      simpa using ha

/-- The server pass step keeps the plan REMOVE-free. -/
theorem serverStep_noRemove (ctx : SyncContext) (ld sd : List Action)
    (st : PassState) (action : Action)
    (h : st.plan.all (fun x => x.type != .remove) = true) :
    (serverStep ctx ld sd st action).plan.all (fun x => x.type != .remove) = true := by
  unfold serverStep
  by_cases hrem : action.type = ActionType.remove
  · simp [hrem, h]
  · have hrem2 : (action.type == ActionType.remove) = false := by
      simpa using hrem
    simp only [hrem2, Bool.false_eq_true, if_false]
    split
    · exact h
    · split
      · split
        · split
          · exact h
          · rw [List.all_append, h]
            simpa using hrem
        · rw [List.all_append, Bool.and_eq_true]
          constructor
          · apply foldlInv (fun pl : List Action => pl.all (fun x => x.type != ActionType.remove) = true)
            · exact h
            · intro c a ha hc
              apply revertServerMove_noRemove ctx ld c a hc
              have hmem : a ∈ getActions sd ActionType.move :=
                (List.mem_filter.mp ha).1
              rw [(mem_getActions hmem).2]
              simp
          · simpa using hrem
      · simp only [List.isEmpty_nil, if_true]
        split
        · exact h
        · rw [List.all_append, h]
          simpa using hrem

/-- The local pass step keeps the plan REMOVE-free. -/
theorem localStep_noRemove (ctx : SyncContext) (ld : List Action)
    (st : PassState) (action : Action)
    (h : st.plan.all (fun x => x.type != .remove) = true) :
    (localStep ctx ld st action).plan.all (fun x => x.type != .remove) = true := by
  unfold localStep
  by_cases hrem : action.type = ActionType.remove
  · simp [hrem, h]
  · have hrem2 : (action.type == ActionType.remove) = false := by
      simpa using hrem
    simp only [hrem2, Bool.false_eq_true, if_false]
    split
    · exact h
    · split
      · exact h
      · split
        · exact h
        · split
          · exact h
          · split
            · exact h
            · rw [List.all_append, h]
              simpa using hrem

/-- C1.  For every pair of input diffs and every mapping snapshot, the
reconcile operation never commits a REMOVE action into either output plan:
every REMOVE in `localDiff` or `serverDiff` is skipped, so neither
`serverPlan` nor `localPlan` contains an action of type REMOVE. -/
theorem reconcile_no_remove (ctx : SyncContext) (localDiff serverDiff : List Action) :
    (reconcile ctx localDiff serverDiff).serverPlan.all
        (fun a => a.type != .remove) = true ∧
    (reconcile ctx localDiff serverDiff).localPlan.all
        (fun a => a.type != .remove) = true := by
  constructor
  · show (mapDiff ctx.mappingsSnapshot.LocalToServer planFilter
      (serverPlanPre ctx localDiff serverDiff)).all (fun a => a.type != .remove) = true
    apply mapDiff_all_type _ _ (fun t => t != ActionType.remove)
    unfold serverPlanPre serverPassState
    exact foldlInv
      (fun st : PassState => st.plan.all (fun x => x.type != ActionType.remove) = true)
      _ _ _ rfl (fun c a _ hc => serverStep_noRemove ctx localDiff serverDiff c a hc)
  · show (mapDiff ctx.mappingsSnapshot.ServerToLocal planFilter
      (localPlanPre ctx localDiff serverDiff)).all (fun a => a.type != .remove) = true
    apply mapDiff_all_type _ _ (fun t => t != ActionType.remove)
    unfold localPlanPre localPassState
    exact foldlInv
      (fun st : PassState => st.plan.all (fun x => x.type != ActionType.remove) = true)
      _ _ _ rfl (fun c a _ hc => localStep_noRemove ctx localDiff c a hc)

end MergeSyncProcess

/-! ### Lemmas about the tree model -/

/-- Every item is in its own subtree. -/
theorem self_mem_subtree (x : Item) : x ∈ Item.subtreeItems x := by
  cases x <;> simp [Item.subtreeItems]

mutual

theorem findItem_isSome_iff : ∀ (k : ItemType) (i : Id) (x : Item),
    (Item.findItem k i x).isSome = true ↔
      ∃ y ∈ Item.subtreeItems x, y.type = k ∧ y.id = i
  | k, i, .bookmark a b c d => by
    simp only [Item.findItem, Item.subtreeItems, List.mem_singleton]
    split
    case isTrue h =>
      simp only [Option.isSome_some, true_iff]
      exact ⟨.bookmark a b c d, rfl, h.1.symm ▸ rfl, h.2 ▸ rfl⟩
    case isFalse h =>
      simp only [Option.isSome_none, Bool.false_eq_true, false_iff]
      rintro ⟨y, rfl, hty, hid⟩
      exact h ⟨hty, hid⟩
  | k, i, .folder a b c cs => by
    simp only [Item.findItem, Item.subtreeItems, List.mem_cons]
    split
    case isTrue h =>
      simp only [Option.isSome_some, true_iff]
      exact ⟨.folder a b c cs, Or.inl rfl, h.1.symm ▸ rfl, h.2 ▸ rfl⟩
    case isFalse h =>
      rw [findItemList_isSome_iff k i cs]
      constructor
      · rintro ⟨y, hy, hty, hid⟩
        exact ⟨y, Or.inr hy, hty, hid⟩
      · rintro ⟨y, hy | hy, hty, hid⟩
        · subst hy
          exact absurd ⟨hty, hid⟩ h
        · exact ⟨y, hy, hty, hid⟩

theorem findItemList_isSome_iff : ∀ (k : ItemType) (i : Id) (l : List Item),
    (findItemList k i l).isSome = true ↔
      ∃ y ∈ subtreeItemsList l, y.type = k ∧ y.id = i
  | k, i, [] => by simp [findItemList, subtreeItemsList]
  | k, i, x :: xs => by
    simp only [findItemList, subtreeItemsList, List.mem_append]
    cases hx : Item.findItem k i x with
    | some r =>
      simp only [Option.isSome_some, true_iff]
      have hs : (Item.findItem k i x).isSome = true := by rw [hx]; rfl
      rcases (findItem_isSome_iff k i x).mp hs with ⟨y, hy, hty, hid⟩
      exact ⟨y, Or.inl hy, hty, hid⟩
    | none =>
      rw [findItemList_isSome_iff k i xs]
      constructor
      · rintro ⟨y, hy, hty, hid⟩
        exact ⟨y, Or.inr hy, hty, hid⟩
      · rintro ⟨y, hy | hy, hty, hid⟩
        · exfalso
          have hs : (Item.findItem k i x).isSome = true :=
            (findItem_isSome_iff k i x).mpr ⟨y, hy, hty, hid⟩
          rw [hx] at hs
          exact Bool.false_ne_true hs
        · exact ⟨y, hy, hty, hid⟩

end

mutual

theorem findItem_some_spec : ∀ (k : ItemType) (i : Id) (x r : Item),
    Item.findItem k i x = some r →
    r ∈ Item.subtreeItems x ∧ r.type = k ∧ r.id = i
  | k, i, .bookmark a b c d, r => by
    simp only [Item.findItem]
    split
    case isTrue h =>
      rintro ⟨rfl⟩
      exact ⟨self_mem_subtree _, h.1.symm ▸ rfl, h.2 ▸ rfl⟩
    case isFalse h => intro hc; cases hc
  | k, i, .folder a b c cs, r => by
    simp only [Item.findItem]
    split
    case isTrue h =>
      rintro ⟨rfl⟩
      exact ⟨self_mem_subtree _, h.1.symm ▸ rfl, h.2 ▸ rfl⟩
    case isFalse h =>
      intro hfind
      rcases findItemList_some_spec k i cs r hfind with ⟨hmem, hty, hid⟩
      exact ⟨by simp only [Item.subtreeItems, List.mem_cons]; exact Or.inr hmem, hty, hid⟩

theorem findItemList_some_spec : ∀ (k : ItemType) (i : Id) (l : List Item) (r : Item),
    findItemList k i l = some r →
    r ∈ subtreeItemsList l ∧ r.type = k ∧ r.id = i
  | k, i, [], r => by intro hc; cases hc
  | k, i, x :: xs, r => by
    simp only [findItemList]
    cases hx : Item.findItem k i x with
    | some r2 =>
      rintro ⟨rfl⟩
      rcases findItem_some_spec k i x r hx with ⟨hmem, hty, hid⟩
      exact ⟨by simp only [subtreeItemsList, List.mem_append]; exact Or.inl hmem, hty, hid⟩
    | none =>
      intro hfind
      rcases findItemList_some_spec k i xs r hfind with ⟨hmem, hty, hid⟩
      exact ⟨by simp only [subtreeItemsList, List.mem_append]; exact Or.inr hmem, hty, hid⟩

end

mutual

theorem subtree_trans : ∀ (x y z : Item),
    y ∈ Item.subtreeItems x → z ∈ Item.subtreeItems y → z ∈ Item.subtreeItems x
  | .bookmark a b c d, y, z => by
    simp only [Item.subtreeItems, List.mem_singleton]
    rintro rfl hz
    simpa only [Item.subtreeItems, List.mem_singleton] using hz
  | .folder a b c cs, y, z => by
    simp only [Item.subtreeItems, List.mem_cons]
    rintro (rfl | hy) hz
    · simpa only [Item.subtreeItems, List.mem_cons] using hz
    · exact Or.inr (subtreeList_trans cs y z hy hz)

theorem subtreeList_trans : ∀ (l : List Item) (y z : Item),
    y ∈ subtreeItemsList l → z ∈ Item.subtreeItems y → z ∈ subtreeItemsList l
  | [], y, z => by simp [subtreeItemsList]
  | c :: cs, y, z => by
    simp only [subtreeItemsList, List.mem_append]
    rintro (hy | hy) hz
    · exact Or.inl (subtree_trans c y z hy hz)
    · exact Or.inr (subtreeList_trans cs y z hy hz)

end

mutual

theorem mem_subtree_size : ∀ (x y : Item),
    y ∈ Item.subtreeItems x → y = x ∨ sizeOf y < sizeOf x
  | .bookmark a b c d, y => by
    simp only [Item.subtreeItems, List.mem_singleton]
    rintro rfl
    exact Or.inl rfl
  | .folder a b c cs, y => by
    simp only [Item.subtreeItems, List.mem_cons]
    rintro (rfl | hy)
    · exact Or.inl rfl
    · have := mem_subtreeList_size cs y hy
      right
      simp only [Item.folder.sizeOf_spec]
      omega

theorem mem_subtreeList_size : ∀ (l : List Item) (y : Item),
    y ∈ subtreeItemsList l → sizeOf y < sizeOf l
  | [], y => by simp [subtreeItemsList]
  | c :: cs, y => by
    simp only [subtreeItemsList, List.mem_append]
    rintro (hy | hy)
    · rcases mem_subtree_size c y hy with rfl | hlt
      · simp only [List.cons.sizeOf_spec]
        omega
      · simp only [List.cons.sizeOf_spec]
        omega
    · have := mem_subtreeList_size cs y hy
      simp only [List.cons.sizeOf_spec]
      omega

end

/-- Mutual subtree membership forces equality. -/
theorem subtree_antisymm {x y : Item} (hxy : y ∈ Item.subtreeItems x)
    (hyx : x ∈ Item.subtreeItems y) : x = y := by
  rcases mem_subtree_size x y hxy with rfl | h1
  · rfl
  · rcases mem_subtree_size y x hyx with rfl | h2
    · rfl
    · omega

/-- How many folders with id `j` the subtree of `x` holds. -/
def folderIdCount (x : Item) (j : Id) : Nat :=
  (Item.subtreeItems x).countP (fun y => y.type == ItemType.folder && y.id == j)

/-- The corresponding count over a sibling list. -/
def folderIdCountList (l : List Item) (j : Id) : Nat :=
  (subtreeItemsList l).countP (fun y => y.type == ItemType.folder && y.id == j)

/-- A bound-one count makes the satisfying member unique. -/
theorem countP_le_one_unique {α : Type} {l : List α} {p : α → Bool}
    (h : l.countP p ≤ 1) {a b : α} (ha : a ∈ l) (hb : b ∈ l)
    (hpa : p a = true) (hpb : p b = true) : a = b := by
  by_contra hne
  obtain ⟨l1, l2, rfl⟩ := List.append_of_mem ha
  simp only [List.countP_append, List.countP_cons, hpa, if_true] at h
  rcases List.mem_append.mp hb with hb1 | hb2
  · have : 0 < l1.countP p := List.countP_pos.mpr ⟨b, hb1, hpb⟩
    omega
  · rcases List.mem_cons.mp hb2 with rfl | hb3
    · exact hne rfl
    · have : 0 < l2.countP p := List.countP_pos.mpr ⟨b, hb3, hpb⟩
      omega

mutual

theorem pathTo_isSome_iff : ∀ (i : Id) (x : Item),
    (pathTo i x).isSome = true ↔
      ∃ y ∈ Item.subtreeItems x, y.type = .folder ∧ y.id = i
  | i, .bookmark a b c d => by
    simp only [pathTo, Item.subtreeItems, List.mem_singleton]
    constructor
    · intro hc; cases hc
    · rintro ⟨y, rfl, hty, _⟩
      cases hty
  | i, .folder a b c cs => by
    simp only [pathTo, Item.subtreeItems, List.mem_cons]
    split
    case isTrue h =>
      simp only [Option.isSome_some, true_iff]
      exact ⟨.folder a b c cs, Or.inl rfl, rfl, h ▸ rfl⟩
    case isFalse h =>
      rw [show (Option.map (fun l => Item.folder a b c cs :: l) (pathToList i cs)).isSome
          = (pathToList i cs).isSome from by cases pathToList i cs <;> rfl,
        pathToList_isSome_iff i cs]
      constructor
      · rintro ⟨y, hy, hty, hid⟩
        exact ⟨y, Or.inr hy, hty, hid⟩
      · rintro ⟨y, hy | hy, hty, hid⟩
        · subst hy
          exact absurd (by simpa [Item.id] using hid) h
        · exact ⟨y, hy, hty, hid⟩

theorem pathToList_isSome_iff : ∀ (i : Id) (l : List Item),
    (pathToList i l).isSome = true ↔
      ∃ y ∈ subtreeItemsList l, y.type = .folder ∧ y.id = i
  | i, [] => by simp [pathToList, subtreeItemsList]
  | i, c :: cs => by
    simp only [pathToList, subtreeItemsList, List.mem_append]
    cases hc : pathTo i c with
    | some l0 =>
      simp only [Option.isSome_some, true_iff]
      have hs : (pathTo i c).isSome = true := by rw [hc]; rfl
      rcases (pathTo_isSome_iff i c).mp hs with ⟨y, hy, hty, hid⟩
      exact ⟨y, Or.inl hy, hty, hid⟩
    | none =>
      rw [pathToList_isSome_iff i cs]
      constructor
      · rintro ⟨y, hy, hty, hid⟩
        exact ⟨y, Or.inr hy, hty, hid⟩
      · rintro ⟨y, hy | hy, hty, hid⟩
        · exfalso
          have hs : (pathTo i c).isSome = true :=
            (pathTo_isSome_iff i c).mpr ⟨y, hy, hty, hid⟩
          rw [hc] at hs
          exact Bool.false_ne_true hs
        · exact ⟨y, hy, hty, hid⟩

end

mutual

theorem pathTo_sound : ∀ (i : Id) (x : Item) (l : List Item) (anc : Item),
    pathTo i x = some l → anc ∈ l →
    anc.type = .folder ∧ anc ∈ Item.subtreeItems x ∧
      ∃ t ∈ Item.subtreeItems anc, t.type = .folder ∧ t.id = i
  | i, .bookmark a b c d, l, anc => by
    intro hc; cases hc
  | i, .folder a b c cs, l, anc => by
    simp only [pathTo]
    split
    case isTrue h =>
      rintro ⟨rfl⟩ hanc
      rcases List.mem_singleton.mp hanc with rfl
      exact ⟨rfl, self_mem_subtree _,
        ⟨.folder a b c cs, self_mem_subtree _, rfl, h ▸ rfl⟩⟩
    case isFalse h =>
      intro hmap hanc
      rcases Option.map_eq_some'.mp hmap with ⟨l0, hl0, rfl⟩
      rcases List.mem_cons.mp hanc with rfl | hanc0
      · refine ⟨rfl, self_mem_subtree _, ?_⟩
        have hs : (pathToList i cs).isSome = true := by rw [hl0]; rfl
        rcases (pathToList_isSome_iff i cs).mp hs with ⟨y, hy, hty, hid⟩
        exact ⟨y, by simp only [Item.subtreeItems, List.mem_cons]; exact Or.inr hy, hty, hid⟩
      · rcases pathToList_sound i cs l0 anc hl0 hanc0 with ⟨hty, hmem, ht⟩
        exact ⟨hty, by simp only [Item.subtreeItems, List.mem_cons]; exact Or.inr hmem, ht⟩

theorem pathToList_sound : ∀ (i : Id) (cs : List Item) (l : List Item) (anc : Item),
    pathToList i cs = some l → anc ∈ l →
    anc.type = .folder ∧ anc ∈ subtreeItemsList cs ∧
      ∃ t ∈ Item.subtreeItems anc, t.type = .folder ∧ t.id = i
  | i, [], l, anc => by intro hc; cases hc
  | i, c :: cs, l, anc => by
    simp only [pathToList]
    cases hc : pathTo i c with
    | some l0 =>
      rintro ⟨rfl⟩ hanc
      rcases pathTo_sound i c l anc hc hanc with ⟨hty, hmem, ht⟩
      exact ⟨hty, by simp only [subtreeItemsList, List.mem_append]; exact Or.inl hmem, ht⟩
    | none =>
      intro hl hanc
      rcases pathToList_sound i cs l anc hl hanc with ⟨hty, hmem, ht⟩
      exact ⟨hty, by simp only [subtreeItemsList, List.mem_append]; exact Or.inr hmem, ht⟩

end

mutual

theorem pathTo_complete : ∀ (i : Id) (x anc t : Item),
    folderIdCount x i ≤ 1 →
    anc ∈ Item.subtreeItems x → t ∈ Item.subtreeItems anc →
    t.type = .folder → t.id = i →
    ∃ l, pathTo i x = some l ∧ anc ∈ l
  | i, .bookmark a b c d, anc, t => by
    intro _ hanc ht htt hti
    rcases List.mem_singleton.mp (by simpa [Item.subtreeItems] using hanc) with rfl
    rcases List.mem_singleton.mp (by simpa [Item.subtreeItems] using ht) with rfl
    cases htt
  | i, .folder a b c cs, anc, t => by
    intro hcount hanc ht htt hti
    have htx : t ∈ Item.subtreeItems (.folder a b c cs) :=
      subtree_trans _ anc t hanc ht
    simp only [pathTo]
    split
    case isTrue h =>
      -- the root itself is the sought folder; uniqueness forces t = root and
      -- anc = root
      have hroot : t = Item.folder a b c cs := by
        apply countP_le_one_unique (by simpa [folderIdCount] using hcount)
          htx (self_mem_subtree _)
        · simp [htt, hti]
        · simp [Item.type, Item.id, h]
      have hanc_eq : anc = t := subtree_antisymm ht (by rw [hroot]; exact hanc)
      exact ⟨_, rfl, List.mem_singleton.mpr (hanc_eq.trans hroot)⟩
    case isFalse h =>
      have hcount2 : folderIdCountList cs i ≤ 1 := by
        simp only [folderIdCount, folderIdCountList, Item.subtreeItems,
          List.countP_cons] at hcount ⊢
        omega
      have htcs : t ∈ subtreeItemsList cs := by
        rcases List.mem_cons.mp (by simpa [Item.subtreeItems] using htx) with rfl | h2
        · exact absurd hti h
        · exact h2
      rcases List.mem_cons.mp (by simpa [Item.subtreeItems] using hanc) with rfl | hanc2
      · -- anc is the root: the path exists and starts with the root
        have hs : (pathToList i cs).isSome = true :=
          (pathToList_isSome_iff i cs).mpr ⟨t, htcs, htt, hti⟩
        rcases Option.isSome_iff_exists.mp hs with ⟨l0, hl0⟩
        exact ⟨_, by rw [hl0]; rfl, List.mem_cons_self _ _⟩
      · rcases pathToList_complete i cs anc t hcount2 hanc2 ht htt hti with ⟨l0, hl0, hmem⟩
        exact ⟨_, by rw [hl0]; rfl, List.mem_cons_of_mem _ hmem⟩

theorem pathToList_complete : ∀ (i : Id) (cs : List Item) (anc t : Item),
    folderIdCountList cs i ≤ 1 →
    anc ∈ subtreeItemsList cs → t ∈ Item.subtreeItems anc →
    t.type = .folder → t.id = i →
    ∃ l, pathToList i cs = some l ∧ anc ∈ l
  | i, [], anc, t => by
    intro _ hanc
    simp [subtreeItemsList] at hanc
  | i, c :: cs, anc, t => by
    intro hcount hanc ht htt hti
    have hsplit : folderIdCount c i + folderIdCountList cs i ≤ 1 := by
      simp only [folderIdCount, folderIdCountList, subtreeItemsList,
        List.countP_append] at hcount ⊢
      omega
    simp only [pathToList]
    rcases List.mem_append.mp (by simpa [subtreeItemsList] using hanc) with hanc1 | hanc2
    · have hc1 : folderIdCount c i ≤ 1 := by omega
      rcases pathTo_complete i c anc t hc1 hanc1 ht htt hti with ⟨l0, hl0, hmem⟩
      exact ⟨l0, by rw [hl0], hmem⟩
    · -- the target folder lives in the tail, so the head holds none of it
      have htcs : t ∈ subtreeItemsList cs :=
        subtreeList_trans cs anc t hanc2 ht
      have hczero : folderIdCount c i = 0 := by
        have : 0 < folderIdCountList cs i := by
          simp only [folderIdCountList]
          exact List.countP_pos.mpr ⟨t, htcs, by simp [htt, hti]⟩
        omega
      have hnone : pathTo i c = none := by
        cases hc : pathTo i c with
        | none => rfl
        | some l0 =>
          exfalso
          have hs : (pathTo i c).isSome = true := by rw [hc]; rfl
          rcases (pathTo_isSome_iff i c).mp hs with ⟨y, hy, hty, hid⟩
          have : 0 < folderIdCount c i := by
            simp only [folderIdCount]
            exact List.countP_pos.mpr ⟨y, hy, by simp [hty, hid]⟩
          omega
      rw [hnone]
      exact pathToList_complete i cs anc t (by omega) hanc2 ht htt hti

end

/-! ### C6: the final identifier translation exempts MOVE and REORDER -/

/-- The identifier translation step of a plan leaves the MOVE and REORDER
actions exactly as they were. -/
theorem mapDiff_filter_exempt (m : MapSide) (l : List Action) :
    (mapDiff m MergeSyncProcess.planFilter l).filter
        (fun a => a.type == .move || a.type == .reorder) =
      l.filter (fun a => a.type == .move || a.type == .reorder) := by
  induction l with
  | nil => rfl
  | cons a as ih =>
    simp only [mapDiff, List.map_cons] at ih ⊢
    by_cases hm : (a.type == ActionType.move || a.type == ActionType.reorder) = true
    · have hpf : MergeSyncProcess.planFilter a = false := by
        have hm2 : a.type = ActionType.move ∨ a.type = ActionType.reorder := by
          simpa using hm
        unfold MergeSyncProcess.planFilter
        rcases hm2 with h | h <;> simp [h]
      rw [hpf]
      simp only [Bool.false_eq_true, if_false, List.filter_cons, hm, if_true]
      rw [ih]
    · have h2 : (((if MergeSyncProcess.planFilter a then mapAction m a else a).type
            == ActionType.move) ||
          ((if MergeSyncProcess.planFilter a then mapAction m a else a).type
            == ActionType.reorder)) = false := by
        rw [mapDiffStep_type]
        simpa using hm
      simp only [List.filter_cons, h2, hm, Bool.false_eq_true, if_false]
      rw [ih]

/-- C6.  After each reconciliation pass, the identifier translation is
applied only to actions that are neither REORDER nor MOVE: the MOVE and
REORDER actions of both final plans are exactly those of the untranslated
plans, identifiers untouched. -/
theorem reconcile_exempts_move_reorder (ctx : SyncContext)
    (localDiff serverDiff : List Action) :
    (MergeSyncProcess.reconcile ctx localDiff serverDiff).serverPlan.filter
        (fun a => a.type == .move || a.type == .reorder) =
      (MergeSyncProcess.serverPlanPre ctx localDiff serverDiff).filter
        (fun a => a.type == .move || a.type == .reorder) ∧
    (MergeSyncProcess.reconcile ctx localDiff serverDiff).localPlan.filter
        (fun a => a.type == .move || a.type == .reorder) =
      (MergeSyncProcess.localPlanPre ctx localDiff serverDiff).filter
        (fun a => a.type == .move || a.type == .reorder) :=
  ⟨mapDiff_filter_exempt _ _, mapDiff_filter_exempt _ _⟩

/-! ### C8: the folder-loop guard of updateFolder -/

/-- C8.  When the requested new parent of a folder lies inside that folder's
own subtree, `updateFolder` raises `Detected folder loop creation` and has
issued no server request and left the cached tree unchanged. -/
theorem updateFolder_loop_guard (tree : Item) (fid fparentId : Id) (ftitle : String)
    (oldFolder : Item) (hfind : tree.findFolder fid = some oldFolder)
    (hdesc : ∃ d ∈ Item.subtreeItems oldFolder, d.type = .folder ∧ d.id = fparentId) :
    NextcloudFolders.updateFolder tree fid fparentId ftitle =
      { requests := [], tree := tree, error := some "Detected folder loop creation" } := by
  unfold NextcloudFolders.updateFolder
  rw [hfind]
  have hsome : (oldFolder.findFolder fparentId).isSome = true := by
    unfold Item.findFolder
    exact (findItem_isSome_iff .folder fparentId oldFolder).mpr hdesc
  simp [hsome]

/-- Witness for C8: moving folder `f` under its own child `g` is refused. -/
theorem updateFolder_loop_guard_witness :
    NextcloudFolders.updateFolder
        (Item.folder (Id.str "r") Id.undef "root"
          [Item.folder (Id.str "f") (Id.str "r") "fold"
            [Item.folder (Id.str "g") (Id.str "f") "sub" []]])
        (Id.str "f") (Id.str "g") "fold" =
      { requests := [],
        tree := Item.folder (Id.str "r") Id.undef "root"
          [Item.folder (Id.str "f") (Id.str "r") "fold"
            [Item.folder (Id.str "g") (Id.str "f") "sub" []]],
        error := some "Detected folder loop creation" } :=
  updateFolder_loop_guard _ _ _ _
    (Item.folder (Id.str "f") (Id.str "r") "fold"
      [Item.folder (Id.str "g") (Id.str "f") "sub" []])
    (by decide) (by decide)

/-! ### C9: the guards of bulkImportFolder -/

/-- C9.  `bulkImportFolder` fails without performing any import when the
folder's recursive item count exceeds 300, and likewise when the server has
been detected not to support bulk import. -/
theorem bulkImportFolder_guards (feat : Option Bool) (tree : Item)
    (parentId : Id) (folder : Item)
    (h : 300 < folder.count ∨ feat = some false) :
    (NextcloudFolders.bulkImportFolder feat tree parentId folder).error.isSome = true ∧
    (NextcloudFolders.bulkImportFolder feat tree parentId folder).requests = [] := by
  unfold NextcloudFolders.bulkImportFolder
  by_cases hf : (feat == some false) = true
  · simp [hf]
  · have hc : 300 < folder.count := by
      rcases h with hc | hf2
      · exact hc
      · exact absurd (by simp [hf2]) hf
    simp [hf, hc]

/-- Witness for C9: an undetected bulk-import feature refuses immediately. -/
theorem bulkImportFolder_guards_witness :
    (NextcloudFolders.bulkImportFolder (some false)
        (Item.folder (Id.str "r") Id.undef "root" []) (Id.str "r")
        (Item.folder (Id.str "f") (Id.str "r") "fold" [])).error.isSome = true ∧
    (NextcloudFolders.bulkImportFolder (some false)
        (Item.folder (Id.str "r") Id.undef "root" []) (Id.str "r")
        (Item.folder (Id.str "f") (Id.str "r") "fold" [])).requests = [] :=
  bulkImportFolder_guards (some false) _ _ _ (Or.inr rfl)

/-! ### C5: concurrent UPDATEs — local wins -/

namespace MergeSyncProcess

/-- The compensation step only appends to the plan. -/
theorem revertServerMove_extends (ctx : SyncContext) (ld : List Action)
    (pl : List Action) (a : Action) :
    ∃ suf, revertServerMove ctx ld pl a = pl ++ suf := by
  unfold revertServerMove
  split
  · exact ⟨[], (List.append_nil pl).symm⟩
  · dsimp only
    split
    · exact ⟨[], (List.append_nil pl).symm⟩
    · exact ⟨_, rfl⟩

/-- Folded compensation only appends to the plan. -/
theorem foldl_revert_extends (ctx : SyncContext) (ld : List Action)
    (revs : List Action) (pl : List Action) :
    ∃ suf, revs.foldl (revertServerMove ctx ld) pl = pl ++ suf := by
  induction revs generalizing pl with
  | nil => exact ⟨[], (List.append_nil pl).symm⟩
  | cons a as ih =>
    obtain ⟨s2, h2⟩ := ih (revertServerMove ctx ld pl a)
    obtain ⟨s1, h1⟩ := revertServerMove_extends ctx ld pl a
    exact ⟨s1 ++ s2, by rw [List.foldl_cons, h2, h1, List.append_assoc]⟩

/-- The server pass step only appends to the plan. -/
theorem serverStep_plan_extends (ctx : SyncContext) (ld sd : List Action)
    (st : PassState) (action : Action) :
    ∃ suf, (serverStep ctx ld sd st action).plan = st.plan ++ suf := by
  unfold serverStep
  by_cases hrem : action.type = ActionType.remove
  · simp only [hrem, beq_self_eq_true, if_true]
    exact ⟨[], (List.append_nil _).symm⟩
  · have hrem2 : (action.type == ActionType.remove) = false := by simpa using hrem
    simp only [hrem2, Bool.false_eq_true, if_false]
    split
    · exact ⟨[], (List.append_nil _).symm⟩
    · split
      · split
        · split
          · exact ⟨[], (List.append_nil _).symm⟩
          · exact ⟨[action], rfl⟩
        · obtain ⟨s1, h1⟩ := foldl_revert_extends ctx ld
            (List.filter (hierarchyReversalServer ctx action) (getActions sd ActionType.move))
            st.plan
          exact ⟨s1 ++ [action], by rw [h1, List.append_assoc]⟩
      · simp only [List.isEmpty_nil, if_true]
        split
        · exact ⟨[], (List.append_nil _).symm⟩
        · exact ⟨[action], rfl⟩

/-- The folded server pass only appends to the plan. -/
theorem foldl_serverStep_extends (ctx : SyncContext) (ld sd : List Action)
    (acts : List Action) (st : PassState) :
    ∃ suf, (acts.foldl (serverStep ctx ld sd) st).plan = st.plan ++ suf := by
  induction acts generalizing st with
  | nil => exact ⟨[], (List.append_nil _).symm⟩
  | cons a as ih =>
    obtain ⟨s2, h2⟩ := ih (serverStep ctx ld sd st a)
    obtain ⟨s1, h1⟩ := serverStep_plan_extends ctx ld sd st a
    exact ⟨s1 ++ s2, by rw [List.foldl_cons, h2, h1, List.append_assoc]⟩

/-- An UPDATE action passes every guard of the server pass and is committed
as-is. -/
theorem serverStep_update_commits (ctx : SyncContext) (ld sd : List Action)
    (st : PassState) (action : Action) (hty : action.type = .update) :
    (serverStep ctx ld sd st action).plan = st.plan ++ [action] := by
  unfold serverStep
  simp [hty]

/-- Every local UPDATE ends up in the untranslated server plan. -/
theorem update_mem_serverPlanPre (ctx : SyncContext) (ld sd : List Action)
    (a : Action) (ha : a ∈ ld) (hty : a.type = .update) :
    a ∈ serverPlanPre ctx ld sd := by
  unfold serverPlanPre serverPassState
  obtain ⟨l1, l2, rfl⟩ := List.append_of_mem ha
  rw [List.foldl_append, List.foldl_cons]
  obtain ⟨suf, hsuf⟩ := foldl_serverStep_extends ctx (l1 ++ a :: l2) sd l2
    (serverStep ctx (l1 ++ a :: l2) sd
      (List.foldl (serverStep ctx (l1 ++ a :: l2) sd) ⟨[], []⟩ l1) a)
  rw [hsuf, serverStep_update_commits _ _ _ _ _ hty]
  simp

/-- The local pass never commits a server UPDATE whose payload id is the
LocalToServer image of some local UPDATE. -/
theorem localStep_update_no_conflict (ctx : SyncContext) (ld : List Action)
    (st : PassState) (action : Action) (s : Id)
    (hex : ∃ a ∈ getActions ld .update,
        s = jsGet (ctx.mappingsSnapshot.LocalToServer.get a.payload.type) a.payload.id)
    (h : ∀ c ∈ st.plan, c.type = .update → c.payload.id ≠ s) :
    ∀ c ∈ (localStep ctx ld st action).plan, c.type = .update → c.payload.id ≠ s := by
  unfold localStep
  by_cases hrem : action.type = ActionType.remove
  · simp only [hrem, beq_self_eq_true, if_true]
    exact h
  · have hrem2 : (action.type == ActionType.remove) = false := by simpa using hrem
    simp only [hrem2, Bool.false_eq_true, if_false]
    split
    · exact h
    · split
      · exact h
      · split
        · exact h
        · rename Option Action => copt
          split
          · exact h
          · rename ¬_ = true => hupd
            split
            · exact h
            · intro c hc hcty
              rcases List.mem_append.mp hc with hc1 | hc2
              · exact h c hc1 hcty
              · rcases List.mem_singleton.mp hc2 with rfl
                intro hid
                apply hupd
                rw [Bool.and_eq_true]
                obtain ⟨a, haMem, hs⟩ := hex
                refine ⟨by simp [hcty], ?_⟩
                rw [List.any_eq_true]
                exact ⟨a, haMem, by rw [beq_iff_eq, hid, hs]⟩

end MergeSyncProcess

/-- C5.  For every local UPDATE action `a`, no server UPDATE of the item
whose server id is the LocalToServer image of `a`'s payload id survives into
the local plan (every UPDATE of the final local plan originates from a server
UPDATE of a different id), while `a` itself is committed — translated — into
the server plan: the local post-state wins on both sides. -/
theorem concurrent_update_local_wins (ctx : SyncContext)
    (localDiff serverDiff : List Action) (a : Action)
    (haMem : a ∈ localDiff) (haTy : a.type = .update) :
    (∀ c ∈ MergeSyncProcess.localPlanPre ctx localDiff serverDiff, c.type = .update →
        c.payload.id ≠
          jsGet (ctx.mappingsSnapshot.LocalToServer.get a.payload.type) a.payload.id) ∧
    (∀ c ∈ (MergeSyncProcess.reconcile ctx localDiff serverDiff).localPlan,
        c.type = .update →
        ∃ c0 ∈ MergeSyncProcess.localPlanPre ctx localDiff serverDiff,
          c = mapAction ctx.mappingsSnapshot.ServerToLocal c0 ∧ c0.type = .update ∧
          c0.payload.id ≠
            jsGet (ctx.mappingsSnapshot.LocalToServer.get a.payload.type) a.payload.id) ∧
    mapAction ctx.mappingsSnapshot.LocalToServer a ∈
      (MergeSyncProcess.reconcile ctx localDiff serverDiff).serverPlan := by
  have hex : ∃ a' ∈ getActions localDiff .update,
      jsGet (ctx.mappingsSnapshot.LocalToServer.get a.payload.type) a.payload.id =
        jsGet (ctx.mappingsSnapshot.LocalToServer.get a'.payload.type) a'.payload.id :=
    ⟨a, getActions_mem haMem haTy, rfl⟩
  have hpre : ∀ c ∈ MergeSyncProcess.localPlanPre ctx localDiff serverDiff,
      c.type = .update →
      c.payload.id ≠
        jsGet (ctx.mappingsSnapshot.LocalToServer.get a.payload.type) a.payload.id := by
    unfold MergeSyncProcess.localPlanPre MergeSyncProcess.localPassState
    apply foldlInv
      (fun st : MergeSyncProcess.PassState => ∀ c ∈ st.plan, c.type = .update →
        c.payload.id ≠
          jsGet (ctx.mappingsSnapshot.LocalToServer.get a.payload.type) a.payload.id)
    · intro c hc
      cases hc
    · intro st action _ h
      exact MergeSyncProcess.localStep_update_no_conflict ctx localDiff st action _ hex h
  refine ⟨hpre, ?_, ?_⟩
  · intro c hc hcty
    rcases List.mem_map.mp hc with ⟨c0, hc0, rfl⟩
    have hc0ty : c0.type = .update := by
      rw [← mapDiffStep_type ctx.mappingsSnapshot.ServerToLocal
        MergeSyncProcess.planFilter c0]
      exact hcty
    have hpf : MergeSyncProcess.planFilter c0 = true := by
      unfold MergeSyncProcess.planFilter
      simp [hc0ty]
    rw [hpf]
    simp only [if_true]
    exact ⟨c0, hc0, rfl, hc0ty, hpre c0 hc0 hc0ty⟩
  · have hmem : a ∈ MergeSyncProcess.serverPlanPre ctx localDiff serverDiff :=
      MergeSyncProcess.update_mem_serverPlanPre ctx localDiff serverDiff a haMem haTy
    have hpf : MergeSyncProcess.planFilter a = true := by
      unfold MergeSyncProcess.planFilter
      simp [haTy]
    apply List.mem_map.mpr
    exact ⟨a, hmem, by rw [hpf]; simp⟩

/-- Sample context for the C5 witness: one bookmark updated on both sides. -/
def c5Ctx : SyncContext :=
  { localTreeRoot := Item.folder (Id.str "r") Id.undef "root" [],
    serverTreeRoot := Item.folder (Id.str "sr") Id.undef "root" [],
    mappingsSnapshot :=
      { LocalToServer := { folder := [(Id.str "r", Id.str "sr")],
                           bookmark := [(Id.str "x", Id.str "sx")] },
        ServerToLocal := { folder := [(Id.str "sr", Id.str "r")],
                           bookmark := [(Id.str "sx", Id.str "x")] } } }

/-- The local UPDATE of the C5 witness. -/
def c5LocalUpdate : Action :=
  { type := .update, payload := Item.bookmark (Id.str "x") (Id.str "r") "L" "u" }

/-- The server UPDATE of the C5 witness. -/
def c5ServerUpdate : Action :=
  { type := .update, payload := Item.bookmark (Id.str "sx") (Id.str "sr") "S" "u" }

/-- Witness for C5: the local UPDATE reaches the server plan translated. -/
theorem concurrent_update_local_wins_witness :
    mapAction c5Ctx.mappingsSnapshot.LocalToServer c5LocalUpdate ∈
      (MergeSyncProcess.reconcile c5Ctx [c5LocalUpdate] [c5ServerUpdate]).serverPlan :=
  (concurrent_update_local_wins c5Ctx [c5LocalUpdate] [c5ServerUpdate] c5LocalUpdate
    (List.mem_singleton.mpr rfl) rfl).2.2

/-! ### C3: compensation of hierarchy-reversal MOVEs (server pass) -/

/-- Written from the spec's words (§4.3): the compensation appended for one
conflicting server MOVE `b` is a MOVE whose payload is `b.oldItem` cloned and
whose oldItem is `b.payload` cloned with id and parentId translated through
ServerToLocal; nothing is appended when the plan or the local diff already
holds a MOVE for the same payload id.  To be compared against the
source-derived `revertServerMove`. -/
def specCompensationStep (snap : MappingsSnapshot) (localDiff : List Action)
    (plan : List Action) (b : Action) : List Action :=
  match b.oldItem with
  | none => plan
  | some bOld =>
    if (getActions plan .move).any (fun mv => mv.payload.id == bOld.id) ||
        (getActions localDiff .move).any (fun mv => mv.payload.id == bOld.id) then
      plan
    else
      plan ++ [Action.mk .move bOld (some (b.payload.withIds
        (jsGet (snap.ServerToLocal.get b.payload.type) b.payload.id)
        (jsGet snap.ServerToLocal.folder b.payload.parentId)))]

/-- On MOVE actions the source compensation coincides with the spec's. -/
theorem revertServerMove_eq_spec (ctx : SyncContext) (ld : List Action)
    (pl : List Action) (b : Action) (hb : b.type = .move) :
    MergeSyncProcess.revertServerMove ctx ld pl b =
      specCompensationStep ctx.mappingsSnapshot ld pl b := by
  obtain ⟨ty, payload, oldItem⟩ := b
  cases hb
  cases oldItem <;> rfl

/-- Folded over MOVE actions, source and spec compensation agree. -/
theorem foldl_revert_eq_spec (ctx : SyncContext) (ld : List Action)
    (l : List Action) (pl : List Action) (hl : ∀ b ∈ l, b.type = .move) :
    l.foldl (MergeSyncProcess.revertServerMove ctx ld) pl =
      l.foldl (specCompensationStep ctx.mappingsSnapshot ld) pl := by
  induction l generalizing pl with
  | nil => rfl
  | cons b bs ih =>
    rw [List.foldl_cons, List.foldl_cons,
      revertServerMove_eq_spec ctx ld pl b (hl b (List.mem_cons_self b bs)),
      ih _ (fun x hx => hl x (List.mem_cons_of_mem b hx))]

/-- C3.  On the server pass, a local MOVE in hierarchy reversal with at least
one server MOVE makes the reconciler append, for each conflicting server MOVE
in order, the spec's compensating MOVE — payload `b.oldItem` cloned, oldItem
`b.payload` cloned with ids translated through ServerToLocal, skipped when
`serverPlan` or `localDiff` already holds a MOVE for the same payload id —
and then commit the local MOVE itself. -/
theorem concurrent_reversal_compensation (ctx : SyncContext)
    (ld sd : List Action) (st : MergeSyncProcess.PassState) (action b : Action)
    (hty : action.type = .move)
    (hb : b ∈ getActions sd .move)
    (hrev : MergeSyncProcess.hierarchyReversalServer ctx action b = true) :
    (MergeSyncProcess.serverStep ctx ld sd st action).plan =
      ((getActions sd .move).filter
          (MergeSyncProcess.hierarchyReversalServer ctx action)).foldl
        (specCompensationStep ctx.mappingsSnapshot ld) st.plan ++ [action] ∧
    b ∈ (getActions sd .move).filter
        (MergeSyncProcess.hierarchyReversalServer ctx action) := by
  have hbmem : b ∈ (getActions sd .move).filter
      (MergeSyncProcess.hierarchyReversalServer ctx action) :=
    List.mem_filter.mpr ⟨hb, hrev⟩
  refine ⟨?_, hbmem⟩
  have hemp : ((getActions sd ActionType.move).filter
      (MergeSyncProcess.hierarchyReversalServer ctx action)).isEmpty = false := by
    cases hemp2 : ((getActions sd ActionType.move).filter
        (MergeSyncProcess.hierarchyReversalServer ctx action)).isEmpty
    · rfl
    · rw [List.isEmpty_iff] at hemp2
      rw [hemp2] at hbmem
      cases hbmem
  unfold MergeSyncProcess.serverStep
  have h1 : (action.type == ActionType.remove) = false := by simp [hty]
  have h2 : (action.type == ActionType.create) = false := by simp [hty]
  have h3 : (action.type == ActionType.move) = true := by simp [hty]
  simp only [h1, h2, h3, Bool.false_eq_true, if_false, if_true, hemp]
  rw [foldl_revert_eq_spec ctx ld _ st.plan
    (fun x hx => (mem_getActions (List.mem_filter.mp hx).1).2)]

/-- C3 witness context: local moves folder A into B while the server moves
(the paired) folder B into A. -/
def c3Ctx : SyncContext :=
  { localTreeRoot := Item.folder (Id.str "r") Id.undef "root"
      [Item.folder (Id.str "B") (Id.str "r") "Bt"
        [Item.folder (Id.str "A") (Id.str "B") "At" []]],
    serverTreeRoot := Item.folder (Id.str "r1") Id.undef "root"
      [Item.folder (Id.str "A1") (Id.str "r1") "At"
        [Item.folder (Id.str "B1") (Id.str "A1") "Bt" []]],
    mappingsSnapshot :=
      { LocalToServer := { folder := [(Id.str "r", Id.str "r1"),
          (Id.str "A", Id.str "A1"), (Id.str "B", Id.str "B1")], bookmark := [] },
        ServerToLocal := { folder := [(Id.str "r1", Id.str "r"),
          (Id.str "A1", Id.str "A"), (Id.str "B1", Id.str "B")], bookmark := [] } } }

/-- The local MOVE of the C3 witness. -/
def c3LocalMove : Action :=
  { type := .move, payload := Item.folder (Id.str "A") (Id.str "B") "At" [],
    oldItem := some (Item.folder (Id.str "A") (Id.str "r") "At" []) }

/-- The server MOVE of the C3 witness. -/
def c3ServerMove : Action :=
  { type := .move, payload := Item.folder (Id.str "B1") (Id.str "A1") "Bt" [],
    oldItem := some (Item.folder (Id.str "B1") (Id.str "r1") "Bt" []) }

/-- Witness for C3: the crossing pair of MOVEs is classified as a reversal
and compensated. -/
theorem concurrent_reversal_compensation_witness :
    (MergeSyncProcess.serverStep c3Ctx [] [c3ServerMove] ⟨[], []⟩ c3LocalMove).plan =
      ((getActions [c3ServerMove] .move).filter
          (MergeSyncProcess.hierarchyReversalServer c3Ctx c3LocalMove)).foldl
        (specCompensationStep c3Ctx.mappingsSnapshot []) [] ++ [c3LocalMove] :=
  (concurrent_reversal_compensation c3Ctx [] [c3ServerMove] ⟨[], []⟩ c3LocalMove c3ServerMove
    rfl (by decide) (by decide)).1

/-! ### C4: concurrent CREATE/CREATE is merged, not replayed -/

/-- C4.  A local CREATE whose parent is the ServerToLocal image of a server
CREATE's parent and whose payload can merge with that server payload commits
nothing into the server plan; instead the sub-scan pairings of the two
subtrees plus the pairing of the two roots themselves are queued as new
mappings. -/
theorem concurrent_creation_merge (ctx : SyncContext)
    (ld sd : List Action) (st : MergeSyncProcess.PassState) (action : Action)
    (hty : action.type = .create)
    (hex : ∃ b ∈ getActions sd .create,
        (action.payload.parentId ==
            jsGet ctx.mappingsSnapshot.ServerToLocal.folder b.payload.parentId &&
          action.payload.canMergeWith b.payload) = true) :
    (MergeSyncProcess.serverStep ctx ld sd st action).plan = st.plan ∧
    ∃ cc, (getActions sd .create).find? (fun b =>
        action.payload.parentId ==
            jsGet ctx.mappingsSnapshot.ServerToLocal.folder b.payload.parentId &&
          action.payload.canMergeWith b.payload) = some cc ∧
      cc ∈ getActions sd .create ∧
      (action.payload.parentId ==
          jsGet ctx.mappingsSnapshot.ServerToLocal.folder cc.payload.parentId &&
        action.payload.canMergeWith cc.payload) = true ∧
      (MergeSyncProcess.serverStep ctx ld sd st action).newMaps =
        st.newMaps ++ subScanPairs cc.payload action.payload
          ++ [(cc.payload, action.payload.id)] := by
  have hsome : ((getActions sd .create).find? (fun b =>
      action.payload.parentId ==
          jsGet ctx.mappingsSnapshot.ServerToLocal.folder b.payload.parentId &&
        action.payload.canMergeWith b.payload)).isSome = true := by
    rw [List.find?_isSome]
    exact hex
  obtain ⟨cc, hcc⟩ := Option.isSome_iff_exists.mp hsome
  have h1 : (action.type == ActionType.remove) = false := by simp [hty]
  have h2 : (action.type == ActionType.create) = true := by simp [hty]
  constructor
  · unfold MergeSyncProcess.serverStep
    simp only [h1, h2, Bool.false_eq_true, if_false, if_true, hcc]
  · have hpcc := List.find?_some hcc
    refine ⟨cc, hcc, List.mem_of_find?_eq_some hcc, hpcc, ?_⟩
    unfold MergeSyncProcess.serverStep
    simp only [h1, h2, Bool.false_eq_true, if_false, if_true, hcc,
      List.append_assoc]

/-- C4 witness context: the same bookmark created on both sides under paired
parents. -/
def c4Ctx : SyncContext :=
  { localTreeRoot := Item.folder (Id.str "lp") Id.undef "root" [],
    serverTreeRoot := Item.folder (Id.str "sp") Id.undef "root" [],
    mappingsSnapshot :=
      { LocalToServer := { folder := [(Id.str "lp", Id.str "sp")], bookmark := [] },
        ServerToLocal := { folder := [(Id.str "sp", Id.str "lp")], bookmark := [] } } }

/-- The local CREATE of the C4 witness. -/
def c4LocalCreate : Action :=
  { type := .create, payload := Item.bookmark (Id.str "l1") (Id.str "lp") "T" "u" }

/-- The server CREATE of the C4 witness. -/
def c4ServerCreate : Action :=
  { type := .create, payload := Item.bookmark (Id.str "s1") (Id.str "sp") "T" "u" }

/-- Witness for C4: the concurrent creation commits nothing. -/
theorem concurrent_creation_merge_witness :
    (MergeSyncProcess.serverStep c4Ctx [] [c4ServerCreate] ⟨[], []⟩ c4LocalCreate).plan
      = [] :=
  (concurrent_creation_merge c4Ctx [] [c4ServerCreate] ⟨[], []⟩ c4LocalCreate
    rfl ⟨c4ServerCreate, by decide, by decide⟩).1

/-! ### C7: conflicting first-sync pairings — which one survives -/

/-- Overwriting insertion, read back: the map branch. -/
theorem jsGet_map_put (m : IdMap) (k v : Id)
    (h : (m.find? (fun q => q.fst == k)).isSome = true) :
    jsGet (m.map (fun q => if q.fst == k then (k, v) else q)) k = v := by
  induction m with
  | nil => simp at h
  | cons p m ih =>
    by_cases hp : (p.fst == k) = true
    · simp only [List.map_cons, hp, if_true]
      simp [jsGet]
    · simp only [List.map_cons, hp, Bool.false_eq_true, if_false]
      have h2 : ((m.find? fun q => q.fst == k).isSome) = true := by
        rw [List.find?_cons_of_neg _ (by simp [hp])] at h
        exact h
      have h3 := ih h2
      simp only [jsGet] at h3 ⊢
      rw [List.find?_cons_of_neg _ (by simp [hp])]
      exact h3

/-- Overwriting insertion, read back: the append branch. -/
theorem jsGet_append_put (m : IdMap) (k v : Id)
    (h : m.find? (fun q => q.fst == k) = none) :
    jsGet (m ++ [(k, v)]) k = v := by
  induction m with
  | nil => simp [jsGet]
  | cons p m ih =>
    have hp : (p.fst == k) = false := by
      by_contra hc
      rw [List.find?_cons_of_pos _ (by simpa using hc)] at h
      cases h
    rw [List.find?_cons_of_neg _ (by simp [hp])] at h
    have h3 := ih h
    simp only [List.cons_append, jsGet] at h3 ⊢
    rw [List.find?_cons_of_neg _ (by simp [hp])]
    exact h3

/-- The value most recently stored under a key is the one read back. -/
theorem jsGet_storePut (m : IdMap) (k v : Id) : jsGet (storePut m k v) k = v := by
  unfold storePut
  split
  case isTrue h => exact jsGet_map_put m k v h
  case isFalse h =>
    apply jsGet_append_put
    cases hf : m.find? (fun q => q.fst == k) with
    | none => rfl
    | some q =>
      exfalso
      apply h
      rw [hf]
      rfl

/-- Reading the variant that was just written. -/
theorem MapSide.get_put_same (m : MapSide) (t : ItemType) (k v : Id) :
    (m.put t k v).get t = storePut (m.get t) k v := by
  cases t <;> rfl

/-- C7, corrected: when several queued pairings target the same item (same
`oldItem.id`, same variant), the pairing applied LAST in FIFO order is the
one that ends up in the mapping store — later conflicting proposals replace
earlier ones, in both directions of the store. -/
theorem last_pairing_wins (st : MappingsStore) (ps : List (Item × Id))
    (it : Item) (v : Id) :
    jsGet ((MergeSyncProcess.applyMappingQueue (ps ++ [(it, v)]) st).LocalToServer.get
        it.type) it.id = v ∧
    jsGet ((MergeSyncProcess.applyMappingQueue (ps ++ [(it, v)]) st).ServerToLocal.get
        it.type) v = it.id := by
  unfold MergeSyncProcess.applyMappingQueue
  rw [List.foldl_append, List.foldl_cons, List.foldl_nil]
  constructor
  · rw [show (addMappingToServer (List.foldl (fun s p => addMappingToServer s p.fst p.snd) st ps)
        it v).LocalToServer = ((List.foldl (fun s p => addMappingToServer s p.fst p.snd) st
          ps).LocalToServer.put it.type it.id v) from rfl,
      MapSide.get_put_same]
    exact jsGet_storePut _ _ _
  · rw [show (addMappingToServer (List.foldl (fun s p => addMappingToServer s p.fst p.snd) st ps)
        it v).ServerToLocal = ((List.foldl (fun s p => addMappingToServer s p.fst p.snd) st
          ps).ServerToLocal.put it.type v it.id) from rfl,
      MapSide.get_put_same]
    exact jsGet_storePut _ _ _

/-- C7, counterexample to the claim as stated: the queue proposes the local
folder `l` paired with `s1` first and with `s2` second (the order of a
depth-first encounter); after the FIFO application the store maps `l` to
`s2`, so the first-encountered pairing did NOT survive. -/
theorem first_pairing_overwritten :
    jsGet ((MergeSyncProcess.applyMappingQueue
        [(Item.folder (Id.str "l") (Id.str "r") "t" [], Id.str "s1"),
         (Item.folder (Id.str "l") (Id.str "r") "t" [], Id.str "s2")]
        { LocalToServer := { folder := [], bookmark := [] },
          ServerToLocal := { folder := [], bookmark := [] } }).LocalToServer.folder)
      (Id.str "l") = Id.str "s2" ∧
    Id.str "s2" ≠ Id.str "s1" := by
  constructor
  · rfl
  · decide

/-! ### C10: createBookmark never duplicates a URL -/

namespace NextcloudFolders

/-- Fresh server-assigned ids are nonempty, hence truthy. -/
theorem freshId_ne_empty (n : Nat) : ("b" ++ toString n) ≠ "" := by
  intro h
  have h2 : ("b" ++ toString n).data = String.data "" := congrArg String.data h
  rw [String.data_append] at h2
  exact absurd (List.append_eq_nil.mp h2).1 (by decide)

/-- Every cached-list entry carries the id and url of some server bookmark. -/
theorem mem_renderList {bms : List ServerBookmark} {c : CachedBookmark}
    (hc : c ∈ renderList bms) : ∃ b ∈ bms, c.url = b.url ∧ c.id = b.id := by
  unfold renderList at hc
  rcases List.mem_flatMap.mp hc with ⟨b, hb, hcb⟩
  rcases List.mem_map.mp hcb with ⟨q, _, rfl⟩
  exact ⟨b, hb, rfl, rfl⟩

/-- `getExistingBookmark` never touches the server store. -/
theorem getExistingBookmark_bookmarks (st : BookmarkState) (url : String) :
    (getExistingBookmark st url).1.bookmarks = st.bookmarks := by
  unfold getExistingBookmark getBookmarksList
  cases hf : st.hasFeatureExistenceCheck <;> cases hl : st.list <;> simp [hf, hl]

/-- When no bookmark with the url exists anywhere, the lookup reports so and
the state it returns is unchanged except possibly a freshly loaded cache that
is still free of the url. -/
theorem getExistingBookmark_fresh (st : BookmarkState) (url : String)
    (hurl : ∀ b ∈ st.bookmarks, b.url ≠ url)
    (hcache : ∀ l, st.list = some l → ∀ c ∈ l, c.url ≠ url) :
    (getExistingBookmark st url).2 = none ∧
    (getExistingBookmark st url).1.bookmarks = st.bookmarks ∧
    (getExistingBookmark st url).1.nextId = st.nextId ∧
    (getExistingBookmark st url).1.hasFeatureExistenceCheck =
      st.hasFeatureExistenceCheck ∧
    (∀ l, (getExistingBookmark st url).1.list = some l → ∀ c ∈ l, c.url ≠ url) := by
  have hn : st.bookmarks.find? (fun b => b.url == url) = none :=
    List.find?_eq_none.mpr (fun b hb => by simp [hurl b hb])
  unfold getExistingBookmark getBookmarksList
  cases hf : st.hasFeatureExistenceCheck with
  | true =>
    simp only [hf, if_true]
    refine ⟨by simp [hn], by trivial, by trivial, by trivial, ?_⟩
    intro l hl c hc
    exact hcache l hl c hc
  | false =>
    cases hlist : st.list with
    | some l =>
      have hnl : l.find? (fun c => c.url == url) = none :=
        List.find?_eq_none.mpr (fun c hc => by simp [hcache l hlist c hc])
      simp only [hf, Bool.false_eq_true, if_false, hlist]
      refine ⟨by simp [hnl], by trivial, by trivial, by trivial, ?_⟩
      intro l2 hl2 c hc
      cases hl2
      exact hcache l hlist c hc
    | none =>
      have hnr : (renderList st.bookmarks).find? (fun c => c.url == url) = none := by
        apply List.find?_eq_none.mpr
        intro c hc
        rcases mem_renderList hc with ⟨b, hb, hcu, _⟩
        simp [hcu, hurl b hb]
      simp only [hf, Bool.false_eq_true, if_false, hlist]
      refine ⟨by simp [hnr], by trivial, by trivial, by trivial, ?_⟩
      intro l2 hl2 c hc
      cases hl2
      rcases mem_renderList hc with ⟨b, hb, hcu, _⟩
      rw [hcu]
      exact hurl b hb

/-- Creating a bookmark whose url is nowhere yet: the upstream POST happens,
the composite id is returned, and any cached list ends with the new entry
after url-free entries. -/
theorem createBookmark_fresh (st : BookmarkState) (url t : String) (p : Id)
    (hurl : ∀ b ∈ st.bookmarks, b.url ≠ url)
    (hcache : ∀ l, st.list = some l → ∀ c ∈ l, c.url ≠ url) :
    (createBookmark st url t p).2 =
        .ok (("b" ++ toString st.nextId) ++ ";" ++ renderId p) ∧
    (createBookmark st url t p).1.bookmarks =
        st.bookmarks ++ [ServerBookmark.mk ("b" ++ toString st.nextId) url t [p]] ∧
    (createBookmark st url t p).1.hasFeatureExistenceCheck =
        st.hasFeatureExistenceCheck ∧
    ((createBookmark st url t p).1.list = none ∨
      ∃ l0, (createBookmark st url t p).1.list =
          some (l0 ++ [CachedBookmark.mk ("b" ++ toString st.nextId) url]) ∧
        ∀ c ∈ l0, c.url ≠ url) := by
  obtain ⟨hnone, hbks, hnext, hflag, hlist⟩ := getExistingBookmark_fresh st url hurl hcache
  unfold createBookmark
  rcases heq : getExistingBookmark st url with ⟨st1, ex⟩
  rw [heq] at hnone hbks hnext hflag hlist
  simp only at hnone hbks hnext hflag hlist
  subst hnone
  unfold createBookmarkUpstream pushCached
  simp only [hbks, hnext, hflag]
  cases hl1 : st1.list with
  | none => exact ⟨by trivial, by trivial, by trivial, Or.inl (by trivial)⟩
  | some l =>
    exact ⟨by trivial, by trivial, by trivial, Or.inr ⟨l, by trivial, hlist l hl1⟩⟩

end NextcloudFolders

namespace NextcloudFolders

/-- A PUT never changes a bookmark's upstream id. -/
theorem applyBookmarkPut_id (u nu nt : String) (nf : List Id) (b2 : ServerBookmark) :
    (applyBookmarkPut u nu nt nf b2).id = b2.id := by
  unfold applyBookmarkPut
  split <;> rfl

/-- An untargeted bookmark passes a PUT unchanged. -/
theorem applyBookmarkPut_other (u nu nt : String) (nf : List Id) (b2 : ServerBookmark)
    (h : (b2.id == u) = false) : applyBookmarkPut u nu nt nf b2 = b2 := by
  unfold applyBookmarkPut
  simp [h]

/-- Pushing onto the cached list never touches the server store. -/
theorem pushCached_bookmarks (st : BookmarkState) (u url : String) :
    (pushCached st u url).bookmarks = st.bookmarks := by
  unfold pushCached
  cases st.list <;> rfl

/-- Creating a bookmark whose url already exists upstream: nothing is
created, the existing bookmark is updated to appear under the requested
parent, and the composite id `upstreamId;parentId` is returned. -/
theorem createBookmark_existing (st : BookmarkState) (url t : String) (p : Id)
    (u : String)
    (hex : (getExistingBookmark st url).2 = some u) (hne : u ≠ "")
    (hfound : ∃ b ∈ st.bookmarks, b.id = u) :
    (createBookmark st url t p).2 = .ok (u ++ ";" ++ renderId p) ∧
    (∃ b0, st.bookmarks.find? (fun b => b.id == u) = some b0 ∧
      (createBookmark st url t p).1.bookmarks =
        st.bookmarks.map (applyBookmarkPut u url t
          (b0.folders.filter (fun q => !(q == Id.undef) && !(q == p)) ++ [p]))) ∧
    (createBookmark st url t p).1.bookmarks.map ServerBookmark.id =
      st.bookmarks.map ServerBookmark.id ∧
    ∃ b ∈ (createBookmark st url t p).1.bookmarks, b.id = u ∧ p ∈ b.folders := by
  have hbks1 : (getExistingBookmark st url).1.bookmarks = st.bookmarks :=
    getExistingBookmark_bookmarks st url
  unfold createBookmark
  rcases heq : getExistingBookmark st url with ⟨st1, ex⟩
  rw [heq] at hex hbks1
  simp only at hex hbks1
  subst hex
  have hneq : (u == "") = false := by simp [hne]
  simp only [hneq, Bool.false_eq_true, if_false]
  unfold updateBookmark
  have hfind : (st1.bookmarks.find? (fun b => b.id == u)).isSome = true := by
    rw [hbks1, List.find?_isSome]
    obtain ⟨b1, hb1, hb1id⟩ := hfound
    exact ⟨b1, hb1, by simp [hb1id]⟩
  obtain ⟨b0, hb0⟩ := Option.isSome_iff_exists.mp hfind
  rw [hb0]
  have hb0p := List.find?_some hb0
  have hb0mem := List.mem_of_find?_eq_some hb0
  have hb0id : b0.id = u := by simpa using hb0p
  simp only [pushCached_bookmarks, hbks1]
  rw [hbks1] at hb0 hb0mem
  refine ⟨by trivial, ⟨b0, hb0, by trivial⟩, ?_, ?_⟩
  · rw [List.map_map]
    apply List.map_congr_left
    intro b2 _
    exact applyBookmarkPut_id _ _ _ _ b2
  · refine ⟨applyBookmarkPut u url t
        (b0.folders.filter (fun q => !(q == Id.undef) && !(q == p)) ++ [p]) b0,
      List.mem_map_of_mem _ hb0mem, ?_, ?_⟩
    · rw [applyBookmarkPut_id]
      exact hb0id
    · unfold applyBookmarkPut
      simp [hb0id]

/-- After a state change that appended the only bookmark with the url (and
kept the cache coherent), `getExistingBookmark` reports exactly its id. -/
theorem getExistingBookmark_finds_last (st1 : BookmarkState) (url u : String)
    (bks : List ServerBookmark) (newB : ServerBookmark)
    (hb : st1.bookmarks = bks ++ [newB]) (hbu : ∀ b ∈ bks, b.url ≠ url)
    (hnu : newB.url = url) (hni : newB.id = u) (hnf : newB.folders ≠ [])
    (hl : st1.list = none ∨ ∃ l0 lastC, st1.list = some (l0 ++ [lastC]) ∧
        (∀ c ∈ l0, c.url ≠ url) ∧ lastC.url = url ∧ lastC.id = u) :
    (getExistingBookmark st1 url).2 = some u := by
  unfold getExistingBookmark getBookmarksList
  have h1 : bks.find? (fun b => b.url == url) = none :=
    List.find?_eq_none.mpr (fun b hbmem => by simp [hbu b hbmem])
  cases hf : st1.hasFeatureExistenceCheck with
  | true =>
    simp only [hf, if_true]
    rw [hb, List.find?_append, h1]
    simp [hnu, hni]
  | false =>
    rcases hl with hl | ⟨l0, lastC, hl, hl0, hcu, hci⟩
    · simp only [hf, Bool.false_eq_true, if_false, hl]
      have h2 : (renderList bks).find? (fun c => c.url == url) = none := by
        apply List.find?_eq_none.mpr
        intro c hc
        rcases mem_renderList hc with ⟨b, hbm, hcu2, _⟩
        simp [hcu2, hbu b hbm]
      rw [hb]
      show ((renderList (bks ++ [newB])).find? (fun c => c.url == url)).map
          CachedBookmark.id = some u
      rw [show renderList (bks ++ [newB]) = renderList bks ++ renderList [newB] by
        unfold renderList; rw [List.flatMap_append]]
      rw [List.find?_append, h2]
      cases hnff : newB.folders with
      | nil => exact absurd hnff hnf
      | cons q qs =>
        show ((renderList [newB]).find? (fun c => c.url == url)).map
            CachedBookmark.id = some u
        unfold renderList
        simp [hnff, hnu, hni]
    · simp only [hf, Bool.false_eq_true, if_false, hl]
      have h3 : l0.find? (fun c => c.url == url) = none :=
        List.find?_eq_none.mpr (fun c hc => by simp [hl0 c hc])
      rw [List.find?_append, h3]
      simp [hcu, hci]

end NextcloudFolders

/-- C10.  Two `createBookmark` calls with the same URL never produce two
distinct server bookmarks: starting from a state without the URL, the second
call does not create — it updates the bookmark made by the first call so that
it additionally appears under the second call's parent, returns the composite
id `existingUpstreamId;parentId`, adds no server bookmark, and the server
holds exactly one bookmark with that URL. -/
theorem createBookmark_no_url_duplicates (st : NextcloudFolders.BookmarkState)
    (url t1 t2 : String) (p1 p2 : Id)
    (hurl : ∀ b ∈ st.bookmarks, b.url ≠ url)
    (hcache : ∀ l, st.list = some l → ∀ c ∈ l, c.url ≠ url)
    (hfresh : ∀ b ∈ st.bookmarks, b.id ≠ "b" ++ toString st.nextId) :
    (NextcloudFolders.createBookmark
        (NextcloudFolders.createBookmark st url t1 p1).1 url t2 p2).2 =
      .ok (("b" ++ toString st.nextId) ++ ";" ++ NextcloudFolders.renderId p2) ∧
    (NextcloudFolders.createBookmark
        (NextcloudFolders.createBookmark st url t1 p1).1 url t2 p2).1.bookmarks.map
        NextcloudFolders.ServerBookmark.id =
      (NextcloudFolders.createBookmark st url t1 p1).1.bookmarks.map
        NextcloudFolders.ServerBookmark.id ∧
    (∃ b ∈ (NextcloudFolders.createBookmark
        (NextcloudFolders.createBookmark st url t1 p1).1 url t2 p2).1.bookmarks,
      b.id = "b" ++ toString st.nextId ∧ p2 ∈ b.folders) ∧
    ((NextcloudFolders.createBookmark
        (NextcloudFolders.createBookmark st url t1 p1).1 url t2
          p2).1.bookmarks.filter (fun b => b.url == url)).length = 1 := by
  obtain ⟨hret1, hbks1, hflag1, hlist1⟩ :=
    NextcloudFolders.createBookmark_fresh st url t1 p1 hurl hcache
  set u := "b" ++ toString st.nextId with hu
  set newB : NextcloudFolders.ServerBookmark :=
    NextcloudFolders.ServerBookmark.mk u url t1 [p1] with hnewB
  set st1 := (NextcloudFolders.createBookmark st url t1 p1).1 with hst1
  have hex2 : (NextcloudFolders.getExistingBookmark st1 url).2 = some u := by
    apply NextcloudFolders.getExistingBookmark_finds_last st1 url u st.bookmarks newB
      hbks1 hurl rfl rfl (by simp [hnewB])
    rcases hlist1 with h | ⟨l0, hl0, hl0u⟩
    · exact Or.inl h
    · exact Or.inr ⟨l0, NextcloudFolders.CachedBookmark.mk u url, hl0, hl0u, rfl, rfl⟩
  have hfound2 : ∃ b ∈ st1.bookmarks, b.id = u := by
    rw [hbks1]
    exact ⟨newB, by simp, rfl⟩
  obtain ⟨hret2, ⟨b0, hb0find, hbks2⟩, hids2, hmem2⟩ :=
    NextcloudFolders.createBookmark_existing st1 url t2 p2 u hex2
      (NextcloudFolders.freshId_ne_empty st.nextId) hfound2
  refine ⟨hret2, hids2, hmem2, ?_⟩
  rw [hbks2, hbks1, List.map_append]
  have hmap1 : st.bookmarks.map (NextcloudFolders.applyBookmarkPut u url t2
      (b0.folders.filter (fun q => !(q == Id.undef) && !(q == p2)) ++ [p2])) =
      st.bookmarks := by
    rw [show st.bookmarks = st.bookmarks.map (fun b => b) from (List.map_id' _).symm]
    rw [List.map_map]
    apply List.map_congr_left
    intro b hb
    simp only [Function.comp]
    apply NextcloudFolders.applyBookmarkPut_other
    simp [hfresh b hb]
  rw [hmap1]
  rw [List.filter_append]
  have hf1 : st.bookmarks.filter (fun b => b.url == url) = [] :=
    List.filter_eq_nil_iff.mpr (fun b hb => by simp [hurl b hb])
  rw [hf1]
  simp [NextcloudFolders.applyBookmarkPut, hnewB]

/-- Witness for C10: an empty adapter state, the same url created twice. -/
theorem createBookmark_no_url_duplicates_witness :
    ((NextcloudFolders.createBookmark
        (NextcloudFolders.createBookmark
          (NextcloudFolders.BookmarkState.mk [] none true 0) "u" "T1" (Id.str "f1")).1
        "u" "T2" (Id.str "f2")).1.bookmarks.filter (fun b => b.url == "u")).length = 1 :=
  (createBookmark_no_url_duplicates (NextcloudFolders.BookmarkState.mk [] none true 0)
    "u" "T1" "T2" (Id.str "f1") (Id.str "f2")
    (by intro b hb; cases hb) (by intro l hl; cases hl) (by intro b hb; cases hb)).2.2.2

/-! ### C2: characterization of the hierarchy-reversal classifier -/

/-- The ancestors chain coincides with the structural root-path of the sought
folder. -/
theorem getAncestorsOf_findItem (tree : Item) (p : Id) :
    getAncestorsOf (Item.findItem .folder p tree) tree = (pathTo p tree).getD [] := by
  cases hf : Item.findItem .folder p tree with
  | none =>
    unfold getAncestorsOf
    cases hp : pathTo p tree with
    | none => rfl
    | some l =>
      exfalso
      have hs : (pathTo p tree).isSome = true := by rw [hp]; rfl
      rcases (pathTo_isSome_iff p tree).mp hs with ⟨y, hy, hty, hid⟩
      have hs2 : (Item.findItem .folder p tree).isSome = true :=
        (findItem_isSome_iff .folder p tree).mpr ⟨y, hy, hty, hid⟩
      rw [hf] at hs2
      exact Bool.false_ne_true hs2
  | some it =>
    unfold getAncestorsOf
    show (pathTo it.id tree).getD [] = (pathTo p tree).getD []
    rw [(findItem_some_spec _ _ _ _ hf).2.2]

/-- `anc` is an ancestor (inclusive) of the folder with id `pid` inside
`tree`: a folder of the tree whose subtree holds a folder with id `pid`. -/
def IsAncestorOfFolder (tree : Item) (pid : Id) (anc : Item) : Prop :=
  anc.type = .folder ∧ anc ∈ Item.subtreeItems tree ∧
    ∃ t ∈ Item.subtreeItems anc, t.type = .folder ∧ t.id = pid

/-- The subtree of `host` (itself included) holds a folder with id `did`. -/
def HasDescendantFolder (host : Item) (did : Id) : Prop :=
  ∃ d ∈ Item.subtreeItems host, d.type = .folder ∧ d.id = did

/-- One side of the hierarchy-reversal condition, characterised: the code's
ancestor walk with mapped-descendant probe holds iff some inclusive ancestor
of the folder `pid` in `tree` is mapped to a folder lying in the subtree of
the folder `hostId` of `host0`. -/
theorem ancestor_mapped_descendant_iff (tree host0 : Item) (pid hostId : Id)
    (m : IdMap)
    (hcount : folderIdCount tree pid ≤ 1)
    (hcountHost : folderIdCount host0 hostId ≤ 1)
    (hnoundef : ∀ y ∈ Item.subtreeItems host0, y.id ≠ Id.undef) :
    ((getAncestorsOf (Item.findItem .folder pid tree) tree).any (fun ancestor =>
      match Item.findItem .folder hostId host0 with
      | some sf => (Item.findItem .folder (jsGet m ancestor.id) sf).isSome
      | none => false)) = true ↔
    (∃ anc, IsAncestorOfFolder tree pid anc ∧
      ∃ sf ∈ Item.subtreeItems host0, sf.type = .folder ∧ sf.id = hostId ∧
        ∃ sid, lookupId m anc.id = some sid ∧ HasDescendantFolder sf sid) := by
  rw [getAncestorsOf_findItem, List.any_eq_true]
  constructor
  · rintro ⟨anc, hancmem, hP⟩
    cases hpath : pathTo pid tree with
    | none =>
      rw [hpath] at hancmem
      cases hancmem
    | some l =>
      rw [hpath] at hancmem
      obtain ⟨hancty, hancintree, ht⟩ := pathTo_sound pid tree l anc hpath hancmem
      cases hsf : Item.findItem .folder hostId host0 with
      | none =>
        rw [hsf] at hP
        cases hP
      | some sf =>
        rw [hsf] at hP
        obtain ⟨hsfmem, hsfty, hsfid⟩ := findItem_some_spec _ _ _ _ hsf
        rcases (findItem_isSome_iff _ _ _).mp hP with ⟨d, hd, hdty, hdid⟩
        cases hlook : lookupId m anc.id with
        | none =>
          exfalso
          have : jsGet m anc.id = Id.undef := by
            unfold jsGet
            unfold lookupId at hlook
            rw [hlook]
            rfl
          rw [this] at hdid
          exact hnoundef d (subtree_trans host0 sf d hsfmem hd) hdid
        | some sid =>
          have hjs : jsGet m anc.id = sid := by
            unfold jsGet
            unfold lookupId at hlook
            rw [hlook]
            rfl
          refine ⟨anc, ⟨hancty, hancintree, ht⟩, sf, hsfmem, hsfty, hsfid,
            sid, hlook, d, hd, hdty, ?_⟩
          rw [← hjs]
          exact hdid
  · rintro ⟨anc, ⟨hancty, hancintree, t, htmem, htty, htid⟩,
      sf, hsfmem, hsfty, hsfid, sid, hlook, d, hdmem, hdty, hdid⟩
    obtain ⟨l, hpath, hancin⟩ :=
      pathTo_complete pid tree anc t hcount hancintree htmem htty htid
    rw [hpath]
    refine ⟨anc, hancin, ?_⟩
    have hsfsome : (Item.findItem .folder hostId host0).isSome = true :=
      (findItem_isSome_iff _ _ _).mpr ⟨sf, hsfmem, hsfty, hsfid⟩
    obtain ⟨sf2, hsf2⟩ := Option.isSome_iff_exists.mp hsfsome
    obtain ⟨hsf2mem, hsf2ty, hsf2id⟩ := findItem_some_spec _ _ _ _ hsf2
    have hsfeq : sf = sf2 := by
      apply countP_le_one_unique (by simpa [folderIdCount] using hcountHost)
        hsfmem hsf2mem
      · simp [hsfty, hsfid]
      · simp [hsf2ty, hsf2id]
    rw [hsf2]
    have hjs : jsGet m anc.id = sid := by
      unfold jsGet
      unfold lookupId at hlook
      rw [hlook]
      rfl
    rw [hjs]
    apply (findItem_isSome_iff _ _ _).mpr
    exact ⟨d, hsfeq ▸ hdmem, hdty, hdid⟩

/-- The spec's statement of the hierarchy-reversal condition (§4.3): both
payloads are folders; some ancestor of the local destination parent has a
server-mapped counterpart that is a descendant of the moved server folder;
and some ancestor of the server destination parent has a local-mapped
counterpart that is a descendant of the moved local folder. -/
def HierarchyReversalSpec (ctx : SyncContext) (A B : Action) : Prop :=
  A.payload.type = .folder ∧ B.payload.type = .folder ∧
  (∃ anc, IsAncestorOfFolder ctx.localTreeRoot A.payload.parentId anc ∧
    ∃ sf ∈ Item.subtreeItems ctx.serverTreeRoot, sf.type = .folder ∧
      sf.id = B.payload.id ∧
      ∃ sid, lookupId ctx.mappingsSnapshot.LocalToServer.folder anc.id = some sid ∧
        HasDescendantFolder sf sid) ∧
  (∃ anc, IsAncestorOfFolder ctx.serverTreeRoot B.payload.parentId anc ∧
    ∃ lf ∈ Item.subtreeItems ctx.localTreeRoot, lf.type = .folder ∧
      lf.id = A.payload.id ∧
      ∃ sid, lookupId ctx.mappingsSnapshot.ServerToLocal.folder anc.id = some sid ∧
        HasDescendantFolder lf sid)

/-- C2.  Under well-formed trees (unique folder ids, no `undefined` ids), the
reconciler's hierarchy-reversal classifier holds exactly when the spec's
condition does, and the local pass classifies the swapped pair identically. -/
theorem hierarchy_reversal_characterization (ctx : SyncContext) (A B : Action)
    (hcL : folderIdCount ctx.localTreeRoot A.payload.parentId ≤ 1)
    (hcS : folderIdCount ctx.serverTreeRoot B.payload.parentId ≤ 1)
    (hcSid : folderIdCount ctx.serverTreeRoot B.payload.id ≤ 1)
    (hcLid : folderIdCount ctx.localTreeRoot A.payload.id ≤ 1)
    (hnuS : ∀ y ∈ Item.subtreeItems ctx.serverTreeRoot, y.id ≠ Id.undef)
    (hnuL : ∀ y ∈ Item.subtreeItems ctx.localTreeRoot, y.id ≠ Id.undef) :
    (MergeSyncProcess.hierarchyReversalServer ctx A B = true ↔
      HierarchyReversalSpec ctx A B) ∧
    MergeSyncProcess.hierarchyReversalLocal ctx B A =
      MergeSyncProcess.hierarchyReversalServer ctx A B := by
  have hX := ancestor_mapped_descendant_iff ctx.localTreeRoot ctx.serverTreeRoot
    A.payload.parentId B.payload.id ctx.mappingsSnapshot.LocalToServer.folder
    hcL hcSid hnuS
  have hY := ancestor_mapped_descendant_iff ctx.serverTreeRoot ctx.localTreeRoot
    B.payload.parentId A.payload.id ctx.mappingsSnapshot.ServerToLocal.folder
    hcS hcLid hnuL
  constructor
  · unfold MergeSyncProcess.hierarchyReversalServer HierarchyReversalSpec
    simp only [Bool.and_eq_true, beq_iff_eq]
    rw [hX, hY, and_assoc, and_assoc]
  · unfold MergeSyncProcess.hierarchyReversalLocal MergeSyncProcess.hierarchyReversalServer
    rw [Bool.and_comm (B.payload.type == ItemType.folder)
      (A.payload.type == ItemType.folder)]

/-- C2 witness context: crossing folder MOVEs (A into B locally, B into A on
the server), mapped pairwise. -/
def c2Ctx : SyncContext :=
  { localTreeRoot := Item.folder (Id.str "r") Id.undef "root"
      [Item.folder (Id.str "B") (Id.str "r") "Bt"
        [Item.folder (Id.str "A") (Id.str "B") "At" []]],
    serverTreeRoot := Item.folder (Id.str "r1") Id.undef "root"
      [Item.folder (Id.str "A1") (Id.str "r1") "At"
        [Item.folder (Id.str "B1") (Id.str "A1") "Bt" []]],
    mappingsSnapshot :=
      { LocalToServer := { folder := [(Id.str "r", Id.str "r1"),
          (Id.str "A", Id.str "A1"), (Id.str "B", Id.str "B1")], bookmark := [] },
        ServerToLocal := { folder := [(Id.str "r1", Id.str "r"),
          (Id.str "A1", Id.str "A"), (Id.str "B1", Id.str "B")], bookmark := [] } } }

/-- The local MOVE of the C2 witness. -/
def c2LocalMove : Action :=
  { type := .move, payload := Item.folder (Id.str "A") (Id.str "B") "At" [],
    oldItem := some (Item.folder (Id.str "A") (Id.str "r") "At" []) }

/-- The server MOVE of the C2 witness. -/
def c2ServerMove : Action :=
  { type := .move, payload := Item.folder (Id.str "B1") (Id.str "A1") "Bt" [],
    oldItem := some (Item.folder (Id.str "B1") (Id.str "r1") "Bt" []) }

/-- Witness for C2: both passes classify the crossing pair identically. -/
theorem hierarchy_reversal_characterization_witness :
    MergeSyncProcess.hierarchyReversalLocal c2Ctx c2ServerMove c2LocalMove =
      MergeSyncProcess.hierarchyReversalServer c2Ctx c2LocalMove c2ServerMove :=
  (hierarchy_reversal_characterization c2Ctx c2LocalMove c2ServerMove
    (by decide) (by decide) (by decide) (by decide) (by decide) (by decide)).2

end Floccus
